import Mathlib

/-!
Verification of `forest_sorter.py` (astro3D).

The program re-orders a per-snapshot halo dataset and rewrites every
identifier field so that cross-references stay valid.  We embed the data
model and the two passes of `sort_and_write_file` as executable Lean
functions over association lists (`h5py` groups become lists of named
integer arrays; Python dictionaries become association lists with
Python's insert/overwrite semantics) and prove the spec's testable
properties about them.
-/

namespace ForestSorter

/-- Association-list lookup (first matching key wins), the model of both
`h5py` group member access and Python `dict` lookup (Python dict keys are
unique by construction, so first match equals the unique match). -/
def lk {κ β : Type} [DecidableEq κ] (k : κ) : List (κ × β) → Option β
  | [] => none
  | (a, b) :: rest => if a = k then some b else lk k rest

/-- Python `d[k] = v`: overwrite in place if the key exists (insertion
order kept), append otherwise. -/
def pyInsert {κ β : Type} [DecidableEq κ] (d : List (κ × β)) (k : κ) (v : β) : List (κ × β) :=
  if (lk k d).isSome then d.map (fun p => if p.1 = k then (k, v) else p)
  else d ++ [(k, v)]

/-- Python `dict(pairs)` built by repeated insertion (later duplicate keys
silently overwrite earlier ones). -/
def dictExtend (d : List (Int × Int)) : List (Int × Int) → List (Int × Int)
  | [] => d
  | p :: ps => dictExtend (pyInsert d p.1 p.2) ps

/-- `dict(zip(ks, vs))` in `sort_and_write_file` line 182. -/
def dictOfPairs (ps : List (Int × Int)) : List (Int × Int) := dictExtend [] ps

/-- An HDF5 group: named integer-valued arrays in iteration order. -/
abbrev HGroup := List (String × List Int)

/-- An HDF5 file: named groups in iteration order. -/
abbrev HFile := List (String × HGroup)

/-- The per-snapshot Python dict mapping old halo IDs to new temporal IDs. -/
abbrev Table := List (Int × Int)

/-- The aggregate `ID_maps` dict keyed by snapshot number. -/
abbrev IDMaps := List (Int × Table)

/-- The `snapshot_indices` dict keyed by snapshot group name. -/
abbrev SnapIdx := List (String × List Nat)

/-- The resolved runtime configuration (`parse_inputs` output). -/
structure Args where
  sort_fields : List String
  halo_id : String
  ID_fields : List String
  index_mult_factor : Int

/-- Character-list prefix test (helper for the substring test below). -/
def isPre : List Char → List Char → Bool
  | [], _ => true
  | _ :: _, [] => false
  | a :: as, b :: bs => a = b && isPre as bs

/-- Character-list substring test, the model of Python's `in` on strings. -/
def hasSub (pat : List Char) : List Char → Bool
  | [] => isPre pat []
  | c :: rest => isPre pat (c :: rest) || hasSub pat rest

/-- `"NONE" in key.upper()` from `get_sort_indices` line 119: the skip test
for sort-key names.  Note this is a *substring* test, not an equality test. -/
def containsNONE (key : String) : Bool :=
  hasSub "NONE".toList (key.toList.map Char.toUpper)

/-- Strict lexicographic comparison of equal-length integer tuples. -/
def lexLtList : List Int → List Int → Bool
  | [], [] => false
  | [], _ :: _ => true
  | _ :: _, [] => false
  | a :: as, b :: bs => a < b || (a == b && lexLtList as bs)

/-- The key tuple `np.lexsort` compares for row `i`: the *last* key array
passed to `lexsort` is the primary sort key, so the tuple reads the key
arrays in reverse order. -/
def idxKey (keys : List (List Int)) (i : Nat) : List Int :=
  (keys.map (fun a => a.getD i 0)).reverse

/-- Total order on row indices realizing `np.lexsort`'s stable sort: compare
key tuples lexicographically, break ties by original index (stability). -/
def cmpIdx (keys : List (List Int)) (i j : Nat) : Bool :=
  lexLtList (idxKey keys i) (idxKey keys j) ||
    (idxKey keys i == idxKey keys j && decide (i ≤ j))

/-- `np.lexsort(sort_keys)`: errors on an empty key sequence or mismatched
key lengths, otherwise returns the stable sorting permutation of
`0 .. n-1` (indices of rows in sorted order). -/
def lexsort (keys : List (List Int)) : Except String (List Nat) :=
  match keys with
  | [] => Except.error "ValueError: need at least one key as an array to sort by"
  | k :: rest =>
    if rest.all (fun a => a.length = k.length) then
      Except.ok (List.insertionSort (fun i j => cmpIdx (k :: rest) i j = true)
        (List.range k.length))
    else Except.error "ValueError: all keys need to be the same shape"

/-- The key-collection loop of `get_sort_indices` (lines 117-121): walk the
name list, skip names whose uppercase form contains `"NONE"`, look the rest
up in the group (`KeyError` if absent). -/
def collectKeys (g : HGroup) : List String → Except String (List (List Int))
  | [] => Except.ok []
  | k :: rest =>
    if containsNONE k then collectKeys g rest
    else
      match lk k g with
      | none => Except.error "KeyError: sort field not present in snapshot"
      | some arr =>
        match collectKeys g rest with
        | Except.error e => Except.error e
        | Except.ok others => Except.ok (arr :: others)

/-- `get_sort_indices` (lines 80-125): build the key list from the reversed
`sort_fields` (so the first listed field ends up last, i.e. primary, for
`np.lexsort`) and sort. -/
def get_sort_indices (g : HGroup) (sort_fields : List String) : Except String (List Nat) :=
  match collectKeys g sort_fields.reverse with
  | Except.error e => Except.error e
  | Except.ok keys => lexsort keys

/-- Modelled from the spec: `genesis.utils.common.index_to_temporalID` is
imported by `forest_sorter.py` but its source is not in the repository
snapshot.  Spec section 4.1: `encode(snapshot_number, local_index) =
snapshot_number * M + local_index`. -/
def index_to_temporalID (index snapnum mult : Int) : Int :=
  snapnum * mult + index

/-- Modelled from the spec: `genesis.utils.common.temporalID_to_snapnum` is
imported by `forest_sorter.py` but its source is not in the repository
snapshot.  Spec section 4.1: `snapshot_number = floor(global_id / M)` "using
truncating integer division consistent with non-negative IDs" (so `-1`
truncates to snapshot number `0`, as the comment at lines 192-198 of
`forest_sorter.py` describes). -/
def temporalID_to_snapnum (temporalID mult : Int) : Int :=
  Int.tdiv temporalID mult

/-- Modelled from the spec: the local-index half of the decoder, spec
section 4.1: `local_index = global_id - snapshot_number * M`. -/
def temporalID_to_index (temporalID mult : Int) : Int :=
  temporalID - (Int.tdiv temporalID mult) * mult

/-- Checked array indexing: numpy fancy indexing raises `IndexError` on an
out-of-range index. -/
def getE (l : List Int) (i : Nat) : Except String Int :=
  match l[i]? with
  | some v => Except.ok v
  | none => Except.error "IndexError: index out of range"

/-- Error-propagating map over a list (Python list comprehension / numpy
element-wise operation: the first raised exception aborts the whole map). -/
def mapE {α β : Type} (f : α → Except String β) : List α → Except String (List β)
  | [] => Except.ok []
  | a :: as =>
    match f a with
    | Except.error e => Except.error e
    | Except.ok b =>
      match mapE f as with
      | Except.error e => Except.error e
      | Except.ok bs => Except.ok (b :: bs)

/-- The new temporal IDs of one snapshot (line 178):
`index_to_temporalID(np.arange(n), snapnum, mult)`. -/
def newHaloIDs (n : Nat) (snapnum mult : Int) : List Int :=
  (List.range n).map (fun j : Nat => index_to_temporalID (j : Int) snapnum mult)

/-- One iteration of the pass-1 loop body (lines 162-190) for snapshot key
`k`: skip if the snapshot holds no halos, otherwise compute the sort
permutation, reorder the old halo IDs by it, pair them with the new
temporal IDs `encode(snapnum, 0..n-1)`, and store permutation and table in
the two aggregate dicts. -/
def pass1Step (f_in : HFile) (args : Args) (snapNums : String → Int) (k : String)
    (sidx : SnapIdx) (maps : IDMaps) : Except String (SnapIdx × IDMaps) :=
  match lk k f_in with
  | none => Except.error "KeyError: snapshot group not present in file"
  | some g =>
    match lk args.halo_id g with
    | none => Except.error "KeyError: halo id field not present in snapshot"
    | some old_haloIDs =>
      if old_haloIDs.length = 0 then Except.ok (sidx, maps)
      else
        match get_sort_indices g args.sort_fields with
        | Except.error e => Except.error e
        | Except.ok indices =>
          match mapE (getE old_haloIDs) indices with
          | Except.error e => Except.error e
          | Except.ok old_haloIDs_sorted =>
            Except.ok
              (pyInsert sidx k indices,
               pyInsert maps (snapNums k)
                 (dictOfPairs (old_haloIDs_sorted.zip
                   (newHaloIDs indices.length (snapNums k) args.index_mult_factor))))

/-- The pass-1 loop over the snapshot keys. -/
def pass1Go (f_in : HFile) (args : Args) (snapNums : String → Int) :
    List String → SnapIdx → IDMaps → Except String (SnapIdx × IDMaps)
  | [], sidx, maps => Except.ok (sidx, maps)
  | k :: rest, sidx, maps =>
    match pass1Step f_in args snapNums k sidx maps with
    | Except.error e => Except.error e
    | Except.ok (sidx2, maps2) => pass1Go f_in args snapNums rest sidx2 maps2

/-- Pass 1 including the sentinel override at line 199: after the loop the
*whole* snapshot-number-0 entry of `ID_maps` is replaced by `{-1: -1}`. -/
def pass1 (f_in : HFile) (args : Args) (snapKeys : List String) (snapNums : String → Int) :
    Except String (SnapIdx × IDMaps) :=
  match pass1Go f_in args snapNums snapKeys [] [] with
  | Except.error e => Except.error e
  | Except.ok (sidx, maps) => Except.ok (sidx, pyInsert maps 0 [(-1, -1)])

/-- One element of the rewrite at lines 241-245: compute the snapshot
number of the old temporal ID and look the ID up in that snapshot's table
(Python raises `KeyError` when either lookup misses). -/
def remapValue (maps : IDMaps) (mult : Int) (v : Int) : Except String Int :=
  match lk (temporalID_to_snapnum v mult) maps with
  | none => Except.error "KeyError: no remap table for snapshot number"
  | some t =>
    match lk v t with
    | none => Except.error "KeyError: old ID not in snapshot remap table"
    | some nv => Except.ok nv

/-- One field of the rewrite (lines 238-252): remap element-wise if the
field is an ID field, then place the values in sorted order with the
group's permutation from `snapshot_indices` (`KeyError` if the group has
no entry there). -/
def rewriteField (args : Args) (maps : IDMaps) (idxOpt : Option (List Nat))
    (fname : String) (vals : List Int) : Except String (List Int) :=
  match (if args.ID_fields.contains fname then
           mapE (remapValue maps args.index_mult_factor) vals
         else Except.ok vals) with
  | Except.error e => Except.error e
  | Except.ok to_write =>
    match idxOpt with
    | none => Except.error "KeyError: group not present in snapshot_indices"
    | some indices => mapE (getE to_write) indices

/-- `f_out[key][field][:] = ...`: overwrite the named dataset's contents
(the dataset exists in the output group because `copy_group` copied it). -/
def setFieldVals (g : HGroup) (name : String) (vals : List Int) : HGroup :=
  g.map (fun p => if p.1 = name then (name, vals) else p)

/-- One iteration of the pass-2 field loop (lines 227-252): the field is
skipped (output group unchanged) when the *input* group lacks the halo-id
field (the caught `KeyError`) or holds zero halos; otherwise it is
rewritten and written into the output group. -/
def fieldStep (args : Args) (maps : IDMaps) (g_in : HGroup) (idxOpt : Option (List Nat))
    (g_out : HGroup) (fname : String) (vals : List Int) : Except String HGroup :=
  match lk args.halo_id g_in with
  | none => Except.ok g_out
  | some h =>
    if h.length = 0 then Except.ok g_out
    else
      match rewriteField args maps idxOpt fname vals with
      | Except.error e => Except.error e
      | Except.ok out => Except.ok (setFieldVals g_out fname out)

/-- The field loop of pass 2 over one group.  A raised error stops the
loop, leaving the fields written so far (`h5py` writes go straight to the
file). -/
def processFields (args : Args) (maps : IDMaps) (g_in : HGroup) (idxOpt : Option (List Nat)) :
    HGroup → List (String × List Int) → HGroup × Option String
  | g_out, [] => (g_out, none)
  | g_out, (fname, vals) :: rest =>
    match fieldStep args maps g_in idxOpt g_out fname vals with
    | Except.error e => (g_out, some e)
    | Except.ok g2 => processFields args maps g_in idxOpt g2 rest

/-- The group loop of pass 2 (lines 217-252): copy each input group into
the output file (`cmn.copy_group`, modelled from the spec's collaborator
contract as a verbatim copy since `genesis.utils.common` is not in the
repository snapshot), then overwrite its fields one by one.  A raised
error stops the run, leaving the output written so far. -/
def pass2Go (args : Args) (sidx : SnapIdx) (maps : IDMaps) :
    List (String × HGroup) → List (String × HGroup) → List (String × HGroup) × Option String
  | out, [] => (out, none)
  | out, (key, g) :: rest =>
    match processFields args maps g (lk key sidx) g g with
    | (g', none) => pass2Go args sidx maps (out ++ [(key, g')]) rest
    | (g', some e) => (out ++ [(key, g')], some e)

/-- `sort_and_write_file` (lines 128-258): pass 1 builds `snapshot_indices`
and `ID_maps`, pass 2 rewrites every group.  The result is the final state
of the output file together with the error that aborted the run, if any
(`none` means the run printed "Done!"). -/
def sort_and_write_file (f_in : HFile) (args : Args) (snapKeys : List String)
    (snapNums : String → Int) : List (String × HGroup) × Option String :=
  match pass1 f_in args snapKeys snapNums with
  | Except.error e => ([], some e)
  | Except.ok (sidx, maps) => pass2Go args sidx maps [] f_in

/-! ### Association-list and Python-dict lemmas -/

theorem lk_cons {κ β : Type} [DecidableEq κ] (k a : κ) (b : β) (rest : List (κ × β)) :
    lk k ((a, b) :: rest) = if a = k then some b else lk k rest := rfl

theorem lk_eq_none_of_forall {κ β : Type} [DecidableEq κ] {k : κ} {d : List (κ × β)}
    (h : ∀ p ∈ d, p.1 ≠ k) : lk k d = none := by
  induction d with
  | nil => rfl
  | cons p rest ih =>
    obtain ⟨a, b⟩ := p
    rw [lk_cons, if_neg (h (a, b) (List.mem_cons_self _ _))]
    exact ih (fun q hq => h q (List.mem_cons_of_mem _ hq))

theorem lk_mem {κ β : Type} [DecidableEq κ] {k : κ} {v : β} {d : List (κ × β)}
    (h : lk k d = some v) : (k, v) ∈ d := by
  induction d with
  | nil => exact absurd h (by simp [lk])
  | cons p rest ih =>
    obtain ⟨a, b⟩ := p
    rw [lk_cons] at h
    by_cases hak : a = k
    · rw [if_pos hak] at h
      injection h with h
      subst hak h
      exact List.mem_cons_self _ _
    · rw [if_neg hak] at h
      exact List.mem_cons_of_mem _ (ih h)

theorem lk_of_mem_nodup {κ β : Type} [DecidableEq κ] {d : List (κ × β)} {a : κ} {b : β}
    (hnd : (d.map Prod.fst).Nodup) (hm : (a, b) ∈ d) : lk a d = some b := by
  induction d with
  | nil => cases hm
  | cons p rest ih =>
    obtain ⟨x, y⟩ := p
    rw [List.map_cons, List.nodup_cons] at hnd
    rcases List.mem_cons.mp hm with he | hm'
    · injection he with h1 h2
      subst h1 h2
      rw [lk_cons, if_pos rfl]
    · rw [lk_cons]
      have hxa : x ≠ a := by
        intro hxe
        exact hnd.1 (hxe ▸ (List.mem_map.mpr ⟨(a, b), hm', rfl⟩))
      rw [if_neg hxa]
      exact ih hnd.2 hm'

theorem lk_append_of_some {κ β : Type} [DecidableEq κ] {k : κ} {v : β} {d : List (κ × β)}
    (e : List (κ × β)) (h : lk k d = some v) : lk k (d ++ e) = some v := by
  induction d with
  | nil => exact absurd h (by simp [lk])
  | cons p rest ih =>
    obtain ⟨a, b⟩ := p
    rw [List.cons_append, lk_cons]
    rw [lk_cons] at h
    by_cases hak : a = k
    · rwa [if_pos hak] at h ⊢
    · rw [if_neg hak] at h ⊢
      exact ih h

theorem lk_append_of_none {κ β : Type} [DecidableEq κ] {k : κ} {d : List (κ × β)}
    (e : List (κ × β)) (h : lk k d = none) : lk k (d ++ e) = lk k e := by
  induction d with
  | nil => rfl
  | cons p rest ih =>
    obtain ⟨a, b⟩ := p
    rw [List.cons_append, lk_cons]
    rw [lk_cons] at h
    by_cases hak : a = k
    · rw [if_pos hak] at h
      cases h
    · rw [if_neg hak] at h ⊢
      exact ih h

theorem lk_overwrite_self {κ β : Type} [DecidableEq κ] {d : List (κ × β)} {k : κ} (v : β)
    (h : (lk k d).isSome) :
    lk k (d.map (fun p => if p.1 = k then (k, v) else p)) = some v := by
  induction d with
  | nil => simp [lk] at h
  | cons p rest ih =>
    obtain ⟨a, b⟩ := p
    rw [lk_cons] at h
    by_cases hak : a = k
    · subst hak
      rw [List.map_cons, if_pos rfl, lk_cons, if_pos rfl]
    · rw [if_neg hak] at h
      rw [List.map_cons, if_neg hak, lk_cons, if_neg hak]
      exact ih h

theorem lk_overwrite_ne {κ β : Type} [DecidableEq κ] (d : List (κ × β)) {k k' : κ} (v : β)
    (h : k' ≠ k) :
    lk k' (d.map (fun p => if p.1 = k then (k, v) else p)) = lk k' d := by
  induction d with
  | nil => rfl
  | cons p rest ih =>
    obtain ⟨a, b⟩ := p
    by_cases hak : a = k
    · subst hak
      rw [List.map_cons, if_pos rfl, lk_cons, lk_cons]
      rw [if_neg (fun he => h he.symm), if_neg (fun he => h he.symm)]
      exact ih
    · rw [List.map_cons, if_neg hak, lk_cons, lk_cons]
      by_cases hak' : a = k'
      · rw [if_pos hak', if_pos hak']
      · rw [if_neg hak', if_neg hak']
        exact ih

theorem lk_pyInsert_self {κ β : Type} [DecidableEq κ] (d : List (κ × β)) (k : κ) (v : β) :
    lk k (pyInsert d k v) = some v := by
  rw [pyInsert]
  by_cases h : (lk k d).isSome
  · rw [if_pos h]
    exact lk_overwrite_self v h
  · rw [if_neg h]
    have hn : lk k d = none := by
      cases he : lk k d with
      | none => rfl
      | some w => exact absurd (by rw [he]; rfl) h
    rw [lk_append_of_none _ hn, lk_cons, if_pos rfl]

theorem lk_pyInsert_ne {κ β : Type} [DecidableEq κ] (d : List (κ × β)) {k k' : κ} (v : β)
    (h : k' ≠ k) : lk k' (pyInsert d k v) = lk k' d := by
  rw [pyInsert]
  by_cases hs : (lk k d).isSome
  · rw [if_pos hs]
    exact lk_overwrite_ne d v h
  · rw [if_neg hs]
    cases he : lk k' d with
    | none =>
      rw [lk_append_of_none _ he, lk_cons, if_neg (fun hkk => h hkk.symm)]
      rfl
    | some w => exact lk_append_of_some _ he

theorem mem_pyInsert {κ β : Type} [DecidableEq κ] {d : List (κ × β)} {k : κ} {v : β}
    {p : κ × β} (h : p ∈ pyInsert d k v) : p = (k, v) ∨ p ∈ d := by
  rw [pyInsert] at h
  by_cases hs : (lk k d).isSome
  · rw [if_pos hs] at h
    rcases List.mem_map.mp h with ⟨q, hq, hqe⟩
    by_cases hqk : q.1 = k
    · rw [if_pos hqk] at hqe
      exact Or.inl hqe.symm
    · rw [if_neg hqk] at hqe
      exact Or.inr (hqe ▸ hq)
  · rw [if_neg hs] at h
    rcases List.mem_append.mp h with hd | he
    · exact Or.inr hd
    · exact Or.inl (List.mem_singleton.mp he)

theorem dictExtend_of_disjoint {ps : List (Int × Int)} :
    ∀ (d : List (Int × Int)), (ps.map Prod.fst).Nodup → (∀ p ∈ ps, lk p.1 d = none) →
      dictExtend d ps = d ++ ps := by
  induction ps with
  | nil => intro d _ _; simp [dictExtend]
  | cons p ps ih =>
    intro d hnd hdisj
    obtain ⟨k, v⟩ := p
    rw [List.map_cons, List.nodup_cons] at hnd
    rw [dictExtend]
    have hk : lk k d = none := hdisj (k, v) (List.mem_cons_self _ _)
    have hins : pyInsert d k v = d ++ [(k, v)] := by
      rw [pyInsert, if_neg (by rw [hk]; simp)]
    have hdisj2 : ∀ q ∈ ps, lk q.1 (d ++ [(k, v)]) = none := by
      intro q hq
      have hqk : q.1 ≠ k := by
        intro he
        exact hnd.1 (he ▸ (List.mem_map.mpr ⟨q, hq, rfl⟩))
      rw [lk_append_of_none _ (hdisj q (List.mem_cons_of_mem _ hq)), lk_cons,
        if_neg (fun hkq => hqk hkq.symm)]
      rfl
    rw [hins, ih (d ++ [(k, v)]) hnd.2 hdisj2]
    simp

theorem dictOfPairs_of_nodup {ps : List (Int × Int)} (hnd : (ps.map Prod.fst).Nodup) :
    dictOfPairs ps = ps := by
  rw [dictOfPairs, dictExtend_of_disjoint [] hnd (fun p _ => rfl), List.nil_append]

theorem lk_zip {as : List Int} : ∀ {bs : List Int} {j : Nat} {a : Int},
    as.Nodup → as[j]? = some a → lk a (as.zip bs) = bs[j]? := by
  induction as with
  | nil => intro bs j a _ hj; simp at hj
  | cons a0 as ih =>
    intro bs j a hnd hj
    cases bs with
    | nil => simp [List.zip_nil_right, lk]
    | cons b0 bs =>
      rw [List.zip_cons_cons, lk_cons]
      cases j with
      | zero =>
        rw [List.getElem?_cons_zero] at hj
        injection hj with hj
        subst hj
        rw [if_pos rfl, List.getElem?_cons_zero]
      | succ j =>
        rw [List.getElem?_cons_succ] at hj
        have ha : a ∈ as := List.mem_iff_getElem?.mpr ⟨j, hj⟩
        have hne : a0 ≠ a := fun he => (List.nodup_cons.mp hnd).1 (he ▸ ha)
        rw [if_neg hne, List.getElem?_cons_succ]
        exact ih (List.nodup_cons.mp hnd).2 hj

/-! ### `mapE` and `getE` lemmas -/

theorem mapE_ok_length {α β : Type} {f : α → Except String β} {l : List α} :
    ∀ {bs : List β}, mapE f l = Except.ok bs → bs.length = l.length := by
  induction l with
  | nil =>
    intro bs h
    rw [mapE] at h
    injection h with h
    subst h
    rfl
  | cons a as ih =>
    intro bs h
    rw [mapE] at h
    cases hfa : f a with
    | error e => rw [hfa] at h; exact Except.noConfusion h
    | ok b =>
      rw [hfa] at h
      cases hmr : mapE f as with
      | error e => rw [hmr] at h; exact Except.noConfusion h
      | ok bs' =>
        rw [hmr] at h
        injection h with h
        rw [← h, List.length_cons, List.length_cons, ih hmr]

theorem mapE_ok_get {α β : Type} {f : α → Except String β} {l : List α} :
    ∀ {bs : List β} {i : Nat} {a : α}, mapE f l = Except.ok bs → l[i]? = some a →
      ∃ b, f a = Except.ok b ∧ bs[i]? = some b := by
  induction l with
  | nil => intro bs i a _ hi; simp at hi
  | cons a0 as ih =>
    intro bs i a h hi
    rw [mapE] at h
    cases hfa : f a0 with
    | error e => rw [hfa] at h; exact Except.noConfusion h
    | ok b0 =>
      rw [hfa] at h
      cases hmr : mapE f as with
      | error e => rw [hmr] at h; exact Except.noConfusion h
      | ok bs' =>
        rw [hmr] at h
        injection h with h
        subst h
        cases i with
        | zero =>
          rw [List.getElem?_cons_zero] at hi
          injection hi with hi
          subst hi
          exact ⟨b0, hfa, List.getElem?_cons_zero⟩
        | succ i =>
          rw [List.getElem?_cons_succ] at hi
          rcases ih hmr hi with ⟨b, hb, hbs⟩
          exact ⟨b, hb, by rw [List.getElem?_cons_succ]; exact hbs⟩

theorem mapE_getE {vals : List Int} {idx : List Nat}
    (h : ∀ i ∈ idx, i < vals.length) :
    mapE (getE vals) idx = Except.ok (idx.map (fun i => vals.getD i 0)) := by
  induction idx with
  | nil => rfl
  | cons i idx ih =>
    have hi : i < vals.length := h i (List.mem_cons_self _ _)
    have hgi : getE vals i = Except.ok (vals.getD i 0) := by
      rw [getE, List.getElem?_eq_getElem hi, List.getD_eq_getElem vals 0 hi]
    rw [mapE, hgi, ih (fun j hj => h j (List.mem_cons_of_mem _ hj)), List.map_cons]

/-! ### Temporal-ID codec lemmas -/

theorem tdiv_encode {s i mult : Int} (hs : 0 ≤ s) (hi : 0 ≤ i) (him : i < mult) :
    Int.tdiv (s * mult + i) mult = s := by
  have hm : 0 < mult := lt_of_le_of_lt hi him
  have hnn : 0 ≤ s * mult + i := add_nonneg (mul_nonneg hs hm.le) hi
  rw [Int.tdiv_eq_ediv hnn hm.le, add_comm, Int.add_mul_ediv_right i s hm.ne.symm,
    Int.ediv_eq_zero_of_lt hi him, zero_add]

theorem tdiv_neg_one {mult : Int} (h : 1 < mult) : Int.tdiv (-1) mult = 0 := by
  have h1 : Int.tdiv (1 : Int) mult = 0 := by
    rw [Int.tdiv_eq_ediv (by norm_num) (by omega)]
    exact Int.ediv_eq_zero_of_lt (by norm_num) h
  rw [show ((-1 : Int)) = -(1 : Int) from rfl, Int.neg_tdiv, h1, neg_zero]

theorem snapnum_of_encode {s i mult : Int} (hs : 0 ≤ s) (hi : 0 ≤ i) (him : i < mult) :
    temporalID_to_snapnum (index_to_temporalID i s mult) mult = s := by
  rw [temporalID_to_snapnum, index_to_temporalID]
  exact tdiv_encode hs hi him

/-! ### Sort-key resolver lemmas -/

theorem collectKeys_mem_arr {g : HGroup} {names : List String} :
    ∀ {keys : List (List Int)}, collectKeys g names = Except.ok keys → ∀ {arr}, arr ∈ keys →
      ∃ name, name ∈ names ∧ containsNONE name = false ∧ lk name g = some arr := by
  induction names with
  | nil =>
    intro keys h arr harr
    rw [collectKeys] at h
    injection h with h
    subst h
    cases harr
  | cons k rest ih =>
    intro keys h arr harr
    rw [collectKeys] at h
    by_cases hck : containsNONE k = true
    · rw [if_pos hck] at h
      rcases ih h harr with ⟨name, hn, hc, hl⟩
      exact ⟨name, List.mem_cons_of_mem _ hn, hc, hl⟩
    · rw [if_neg hck] at h
      cases hlk : lk k g with
      | none => rw [hlk] at h; exact Except.noConfusion h
      | some arr0 =>
        rw [hlk] at h
        cases hrec : collectKeys g rest with
        | error e => rw [hrec] at h; exact Except.noConfusion h
        | ok others =>
          rw [hrec] at h
          injection h with h
          subst h
          rcases List.mem_cons.mp harr with he | hm
          · subst he
            exact ⟨k, List.mem_cons_self _ _, Bool.not_eq_true _ ▸ (eq_false_of_ne_true hck), hlk⟩
          · rcases ih hrec hm with ⟨name, hn, hc, hl⟩
            exact ⟨name, List.mem_cons_of_mem _ hn, hc, hl⟩

theorem collectKeys_mem_name {g : HGroup} {names : List String} :
    ∀ {keys : List (List Int)}, collectKeys g names = Except.ok keys →
      ∀ {name}, name ∈ names → containsNONE name = false →
      ∃ arr, lk name g = some arr ∧ arr ∈ keys := by
  induction names with
  | nil => intro keys _ name hn; cases hn
  | cons k rest ih =>
    intro keys h name hn hnc
    rw [collectKeys] at h
    by_cases hck : containsNONE k = true
    · rw [if_pos hck] at h
      rcases List.mem_cons.mp hn with he | hm
      · subst he
        rw [hnc] at hck
        cases hck
      · exact ih h hm hnc
    · rw [if_neg hck] at h
      cases hlk : lk k g with
      | none => rw [hlk] at h; exact Except.noConfusion h
      | some arr0 =>
        rw [hlk] at h
        cases hrec : collectKeys g rest with
        | error e => rw [hrec] at h; exact Except.noConfusion h
        | ok others =>
          rw [hrec] at h
          injection h with h
          subst h
          rcases List.mem_cons.mp hn with he | hm
          · subst he
            exact ⟨arr0, hlk, List.mem_cons_self _ _⟩
          · rcases ih hrec hm hnc with ⟨arr, hl, hm2⟩
            exact ⟨arr, hl, List.mem_cons_of_mem _ hm2⟩

theorem get_sort_indices_ok_perm {g : HGroup} {sf : List String} {idx : List Nat} {n : Nat}
    (hok : get_sort_indices g sf = Except.ok idx)
    (hlen : ∀ name ∈ sf, containsNONE name = false →
      ∀ arr, lk name g = some arr → arr.length = n)
    (hex : ∃ name, name ∈ sf ∧ containsNONE name = false) :
    idx.Perm (List.range n) := by
  rw [get_sort_indices] at hok
  cases hck : collectKeys g sf.reverse with
  | error e => rw [hck] at hok; exact Except.noConfusion hok
  | ok keys =>
    rw [hck] at hok
    dsimp only at hok
    rcases hex with ⟨name, hn, hnc⟩
    rcases collectKeys_mem_name hck (List.mem_reverse.mpr hn) hnc with ⟨arr, _, harr⟩
    cases keys with
    | nil => cases harr
    | cons k0 krest =>
      rw [lexsort.eq_def] at hok
      dsimp only at hok
      by_cases hall : krest.all (fun a => a.length = k0.length) = true
      · rw [if_pos hall] at hok
        injection hok with hok
        subst hok
        rcases collectKeys_mem_arr hck (List.mem_cons_self k0 krest) with ⟨nm0, hn0, hc0, hl0⟩
        have hlen0 : k0.length = n := hlen nm0 (List.mem_reverse.mp hn0) hc0 k0 hl0
        rw [hlen0]
        exact List.perm_insertionSort _ _
      · rw [if_neg hall] at hok
        exact Except.noConfusion hok

/-- C8 core: whenever `get_sort_indices` succeeds on a snapshot whose
participating sort-key arrays all have length `n`, the returned index
sequence is a permutation of `0 .. n-1`. -/
theorem sort_indices_perm_core {g : HGroup} {sf : List String} {idx : List Nat} {n : Nat}
    (hok : get_sort_indices g sf = Except.ok idx)
    (hlen : ∀ name ∈ sf, containsNONE name = false →
      ∀ arr, lk name g = some arr → arr.length = n)
    (hex : ∃ name, name ∈ sf ∧ containsNONE name = false) :
    idx.length = n ∧ idx.Nodup ∧ ∀ m, m < n → m ∈ idx := by
  have hp := get_sort_indices_ok_perm hok hlen hex
  refine ⟨hp.length_eq.trans (List.length_range n), hp.symm.nodup (List.nodup_range n), ?_⟩
  intro m hm
  exact hp.mem_iff.mpr (List.mem_range.mpr hm)

/-- Skipped sort keys (uppercase name containing `"NONE"`) do not
influence the result of `collectKeys` at all. -/
theorem collectKeys_skip {g : HGroup} {k : String} (hk : containsNONE k = true) :
    ∀ (xs ys : List String), collectKeys g (xs ++ k :: ys) = collectKeys g (xs ++ ys) := by
  intro xs
  induction xs with
  | nil =>
    intro ys
    rw [List.nil_append, List.nil_append, collectKeys, if_pos hk]
  | cons x xs ih =>
    intro ys
    rw [List.cons_append, List.cons_append, collectKeys, collectKeys]
    by_cases hcx : containsNONE x = true
    · rw [if_pos hcx, if_pos hcx, ih]
    · rw [if_neg hcx, if_neg hcx]
      cases lk x g with
      | none => rfl
      | some arr => rw [ih]

/-- The reverse of a list with one element inserted in the middle. -/
theorem reverse_middle {α : Type} (k : α) (l1 l2 : List α) :
    (l1 ++ k :: l2).reverse = l2.reverse ++ k :: l1.reverse := by
  rw [List.reverse_append, List.reverse_cons, List.append_assoc, List.singleton_append]

/-! ### Pass-1 lemmas -/

theorem pass1Go_cons {f_in : HFile} {args : Args} {snapNums : String → Int} {k : String}
    {rest : List String} {sidx : SnapIdx} {maps : IDMaps} {res : SnapIdx × IDMaps}
    (h : pass1Go f_in args snapNums (k :: rest) sidx maps = Except.ok res) :
    ∃ sidx2 maps2, pass1Step f_in args snapNums k sidx maps = Except.ok (sidx2, maps2) ∧
      pass1Go f_in args snapNums rest sidx2 maps2 = Except.ok res := by
  rw [pass1Go] at h
  cases hst : pass1Step f_in args snapNums k sidx maps with
  | error e => rw [hst] at h; exact Except.noConfusion h
  | ok p =>
    rw [hst] at h
    obtain ⟨sidx2, maps2⟩ := p
    exact ⟨sidx2, maps2, rfl, h⟩

/-- Inversion of a successful pass-1 step: either the snapshot was skipped
as empty (accumulators unchanged) or the lookups and computations all
succeeded and both dicts received their entry. -/
theorem pass1Step_ok_inv {f_in : HFile} {args : Args} {snapNums : String → Int} {k : String}
    {sidx : SnapIdx} {maps : IDMaps} {sidx2 : SnapIdx} {maps2 : IDMaps}
    (h : pass1Step f_in args snapNums k sidx maps = Except.ok (sidx2, maps2)) :
    ∃ g old, lk k f_in = some g ∧ lk args.halo_id g = some old ∧
      ((old.length = 0 ∧ sidx2 = sidx ∧ maps2 = maps) ∨
       (old.length ≠ 0 ∧ ∃ indices old_sorted,
         get_sort_indices g args.sort_fields = Except.ok indices ∧
         mapE (getE old) indices = Except.ok old_sorted ∧
         sidx2 = pyInsert sidx k indices ∧
         maps2 = pyInsert maps (snapNums k)
           (dictOfPairs (old_sorted.zip
             (newHaloIDs indices.length (snapNums k) args.index_mult_factor))))) := by
  rw [pass1Step] at h
  cases hg : lk k f_in with
  | none => simp only [hg] at h; exact Except.noConfusion h
  | some g =>
    simp only [hg] at h
    cases hold : lk args.halo_id g with
    | none => simp only [hold] at h; exact Except.noConfusion h
    | some old =>
      simp only [hold] at h
      by_cases hlen : old.length = 0
      · rw [if_pos hlen] at h
        injection h with h
        exact ⟨g, old, rfl, hold, Or.inl ⟨hlen, congrArg Prod.fst h.symm, congrArg Prod.snd h.symm⟩⟩
      · rw [if_neg hlen] at h
        cases hsi : get_sort_indices g args.sort_fields with
        | error e => simp only [hsi] at h; exact Except.noConfusion h
        | ok indices =>
          simp only [hsi] at h
          cases hms : mapE (getE old) indices with
          | error e => simp only [hms] at h; exact Except.noConfusion h
          | ok old_sorted =>
            simp only [hms] at h
            injection h with h
            exact ⟨g, old, rfl, hold, Or.inr ⟨hlen, indices, old_sorted, hsi, hms,
              congrArg Prod.fst h.symm, congrArg Prod.snd h.symm⟩⟩

/-- If no remaining snapshot key carries snapshot number `s`, the `s` entry
of `ID_maps` never changes over the rest of the loop. -/
theorem pass1Go_lk_maps_ne {f_in : HFile} {args : Args} {snapNums : String → Int} {s : Int} :
    ∀ {l : List String} {sidx : SnapIdx} {maps : IDMaps} {res : SnapIdx × IDMaps},
      pass1Go f_in args snapNums l sidx maps = Except.ok res →
      (∀ k ∈ l, snapNums k ≠ s) → lk s res.2 = lk s maps := by
  intro l
  induction l with
  | nil =>
    intro sidx maps res h _
    rw [pass1Go] at h
    injection h with h
    rw [← h]
  | cons k rest ih =>
    intro sidx maps res h hne
    rcases pass1Go_cons h with ⟨sidx2, maps2, hst, hgo⟩
    rcases pass1Step_ok_inv hst with ⟨g, old, _, _, hcase⟩
    rcases hcase with ⟨_, _, hm⟩ | ⟨_, indices, old_sorted, _, _, _, hm⟩
    · subst hm
      exact ih hgo (fun q hq => hne q (List.mem_cons_of_mem _ hq))
    · subst hm
      rw [ih hgo (fun q hq => hne q (List.mem_cons_of_mem _ hq))]
      exact lk_pyInsert_ne maps _ (hne k (List.mem_cons_self _ _)).symm

/-- Same for the `snapshot_indices` entry of a group key not among the
remaining keys. -/
theorem pass1Go_lk_sidx_ne {f_in : HFile} {args : Args} {snapNums : String → Int} {gk : String} :
    ∀ {l : List String} {sidx : SnapIdx} {maps : IDMaps} {res : SnapIdx × IDMaps},
      pass1Go f_in args snapNums l sidx maps = Except.ok res →
      (∀ k ∈ l, k ≠ gk) → lk gk res.1 = lk gk sidx := by
  intro l
  induction l with
  | nil =>
    intro sidx maps res h _
    rw [pass1Go] at h
    injection h with h
    rw [← h]
  | cons k rest ih =>
    intro sidx maps res h hne
    rcases pass1Go_cons h with ⟨sidx2, maps2, hst, hgo⟩
    rcases pass1Step_ok_inv hst with ⟨g, old, _, _, hcase⟩
    rcases hcase with ⟨_, hm, _⟩ | ⟨_, indices, old_sorted, _, _, hm, _⟩
    · subst hm
      exact ih hgo (fun q hq => hne q (List.mem_cons_of_mem _ hq))
    · subst hm
      rw [ih hgo (fun q hq => hne q (List.mem_cons_of_mem _ hq))]
      exact lk_pyInsert_ne sidx _ (hne k (List.mem_cons_self _ _)).symm

/-- The `ID_maps` entry produced by pass 1 for a non-empty snapshot `gk`
whose snapshot number `s` is unique among the processed keys: it is the
Python dict pairing the permuted old halo IDs with the new temporal IDs. -/
theorem pass1Go_lk_maps_found {f_in : HFile} {args : Args} {snapNums : String → Int}
    {gk : String} {g : HGroup} {old : List Int} {indices : List Nat} {old_sorted : List Int} :
    ∀ {l : List String} {sidx : SnapIdx} {maps : IDMaps} {res : SnapIdx × IDMaps},
      pass1Go f_in args snapNums l sidx maps = Except.ok res →
      l.Nodup → gk ∈ l → (∀ k ∈ l, snapNums k = snapNums gk → k = gk) →
      lk gk f_in = some g → lk args.halo_id g = some old → old.length ≠ 0 →
      get_sort_indices g args.sort_fields = Except.ok indices →
      mapE (getE old) indices = Except.ok old_sorted →
      lk (snapNums gk) res.2 =
        some (dictOfPairs (old_sorted.zip
          (newHaloIDs indices.length (snapNums gk) args.index_mult_factor))) := by
  intro l
  induction l with
  | nil => intro _ _ _ _ _ hmem _ _ _ _ _ _; cases hmem
  | cons k rest ih =>
    intro sidx maps res h hnd hmem huniq hg hold hlen hsi hms
    rcases pass1Go_cons h with ⟨sidx2, maps2, hst, hgo⟩
    rcases List.mem_cons.mp hmem with he | hm
    · subst he
      rw [pass1Step] at hst
      simp only [hg, hold, if_neg hlen, hsi, hms] at hst
      injection hst with hst
      have hmaps2 : maps2 = pyInsert maps (snapNums gk)
          (dictOfPairs (old_sorted.zip
            (newHaloIDs indices.length (snapNums gk) args.index_mult_factor))) :=
        (congrArg Prod.snd hst).symm
      have hrest : ∀ q ∈ rest, snapNums q ≠ snapNums gk := by
        intro q hq hqe
        have := huniq q (List.mem_cons_of_mem _ hq) hqe
        subst this
        exact (List.nodup_cons.mp hnd).1 hq
      rw [pass1Go_lk_maps_ne hgo hrest, hmaps2]
      exact lk_pyInsert_self _ _ _
    · have hkgk : k ≠ gk := by
        intro he
        subst he
        exact (List.nodup_cons.mp hnd).1 hm
      rcases pass1Step_ok_inv hst with ⟨g2, old2, _, _, hcase⟩
      have hrec : lk (snapNums gk) res.2 = _ :=
        ih hgo (List.nodup_cons.mp hnd).2 hm
          (fun q hq hqe => huniq q (List.mem_cons_of_mem _ hq) hqe) hg hold hlen hsi hms
      exact hrec

/-- The `snapshot_indices` entry produced by pass 1 for a non-empty
snapshot group key `gk`: it is the result of `get_sort_indices` on that
group. -/
theorem pass1Go_lk_sidx_found {f_in : HFile} {args : Args} {snapNums : String → Int}
    {gk : String} {g : HGroup} {old : List Int} {indices : List Nat} {old_sorted : List Int} :
    ∀ {l : List String} {sidx : SnapIdx} {maps : IDMaps} {res : SnapIdx × IDMaps},
      pass1Go f_in args snapNums l sidx maps = Except.ok res →
      l.Nodup → gk ∈ l →
      lk gk f_in = some g → lk args.halo_id g = some old → old.length ≠ 0 →
      get_sort_indices g args.sort_fields = Except.ok indices →
      mapE (getE old) indices = Except.ok old_sorted →
      lk gk res.1 = some indices := by
  intro l
  induction l with
  | nil => intro _ _ _ _ _ hmem _ _ _ _ _; cases hmem
  | cons k rest ih =>
    intro sidx maps res h hnd hmem hg hold hlen hsi hms
    rcases pass1Go_cons h with ⟨sidx2, maps2, hst, hgo⟩
    rcases List.mem_cons.mp hmem with he | hm
    · subst he
      rw [pass1Step] at hst
      simp only [hg, hold, if_neg hlen, hsi, hms] at hst
      injection hst with hst
      have hsidx2 : sidx2 = pyInsert sidx gk indices := (congrArg Prod.fst hst).symm
      have hrest : ∀ q ∈ rest, q ≠ gk := by
        intro q hq hqe
        subst hqe
        exact (List.nodup_cons.mp hnd).1 hq
      rw [pass1Go_lk_sidx_ne hgo hrest, hsidx2]
      exact lk_pyInsert_self _ _ _
    · exact ih hgo (List.nodup_cons.mp hnd).2 hm hg hold hlen hsi hms

/-- Inversion of `pass1`: the loop succeeded and the `-1 → -1` override was
written over whatever the snapshot-number-0 entry held. -/
theorem pass1_ok_inv {f_in : HFile} {args : Args} {snapKeys : List String}
    {snapNums : String → Int} {sidx : SnapIdx} {maps : IDMaps}
    (h : pass1 f_in args snapKeys snapNums = Except.ok (sidx, maps)) :
    ∃ maps0, pass1Go f_in args snapNums snapKeys [] [] = Except.ok (sidx, maps0) ∧
      maps = pyInsert maps0 0 [(-1, -1)] := by
  rw [pass1] at h
  cases hgo : pass1Go f_in args snapNums snapKeys [] [] with
  | error e => rw [hgo] at h; exact Except.noConfusion h
  | ok p =>
    rw [hgo] at h
    obtain ⟨sidx0, maps0⟩ := p
    injection h with h
    have hfst : sidx0 = sidx := congrArg Prod.fst h
    have hsnd : pyInsert maps0 0 [(-1, -1)] = maps := congrArg Prod.snd h
    subst hfst
    exact ⟨maps0, rfl, hsnd.symm⟩

/-- All keys of the aggregate `ID_maps` are snapshot numbers of processed
keys or the sentinel bucket `0`; with non-negative snapshot numbers every
key is non-negative. -/
theorem pass1Go_maps_keys_nonneg {f_in : HFile} {args : Args} {snapNums : String → Int}
    (hsn : ∀ k, 0 ≤ snapNums k) :
    ∀ {l : List String} {sidx : SnapIdx} {maps : IDMaps} {res : SnapIdx × IDMaps},
      pass1Go f_in args snapNums l sidx maps = Except.ok res →
      (∀ p ∈ maps, 0 ≤ p.1) → ∀ p ∈ res.2, 0 ≤ p.1 := by
  intro l
  induction l with
  | nil =>
    intro sidx maps res h hnn
    rw [pass1Go] at h
    injection h with h
    rw [← h]
    exact hnn
  | cons k rest ih =>
    intro sidx maps res h hnn
    rcases pass1Go_cons h with ⟨sidx2, maps2, hst, hgo⟩
    rcases pass1Step_ok_inv hst with ⟨g, old, _, _, hcase⟩
    rcases hcase with ⟨_, _, hm⟩ | ⟨_, indices, old_sorted, _, _, _, hm⟩
    · subst hm
      exact ih hgo hnn
    · subst hm
      refine ih hgo ?_
      intro p hp
      rcases mem_pyInsert hp with he | hmem
      · rw [he]
        exact hsn k
      · exact hnn p hmem

/-! ### Pass-2 lemmas -/

theorem lk_setFieldVals_self {g : HGroup} {name : String} (vals : List Int)
    (h : (lk name g).isSome) : lk name (setFieldVals g name vals) = some vals := by
  rw [setFieldVals]
  exact lk_overwrite_self vals h

theorem lk_setFieldVals_ne {g : HGroup} {name k' : String} (vals : List Int)
    (h : k' ≠ name) : lk k' (setFieldVals g name vals) = lk k' g := by
  rw [setFieldVals]
  exact lk_overwrite_ne g vals h

theorem isSome_setFieldVals {g : HGroup} {name k' : String} (vals : List Int)
    (h : (lk k' g).isSome) : (lk k' (setFieldVals g name vals)).isSome := by
  by_cases he : k' = name
  · subst he
    rw [lk_setFieldVals_self vals h]
    rfl
  · rw [lk_setFieldVals_ne vals he]
    exact h

theorem fieldStep_ok_skip {args : Args} {maps : IDMaps} {g_in : HGroup}
    {idxOpt : Option (List Nat)} {g_out : HGroup} {fname : String} {vals : List Int}
    (h : lk args.halo_id g_in = none ∨ ∃ hv, lk args.halo_id g_in = some hv ∧ hv.length = 0) :
    fieldStep args maps g_in idxOpt g_out fname vals = Except.ok g_out := by
  rw [fieldStep]
  rcases h with h | ⟨hv, h, hlen⟩
  · rw [h]
  · rw [h]
    simp only [if_pos hlen]

theorem fieldStep_ok_rewrite {args : Args} {maps : IDMaps} {g_in : HGroup}
    {idxOpt : Option (List Nat)} {g_out g2 : HGroup} {fname : String} {vals : List Int}
    {hv : List Int} (h : fieldStep args maps g_in idxOpt g_out fname vals = Except.ok g2)
    (hh : lk args.halo_id g_in = some hv) (hlen : hv.length ≠ 0) :
    ∃ w, rewriteField args maps idxOpt fname vals = Except.ok w ∧
      g2 = setFieldVals g_out fname w := by
  rw [fieldStep] at h
  simp only [hh, if_neg hlen] at h
  cases hrw : rewriteField args maps idxOpt fname vals with
  | error e => simp only [hrw] at h; exact Except.noConfusion h
  | ok w =>
    simp only [hrw] at h
    injection h with h
    exact ⟨w, rfl, h.symm⟩

theorem fieldStep_lk_ne {args : Args} {maps : IDMaps} {g_in : HGroup}
    {idxOpt : Option (List Nat)} {g_out g2 : HGroup} {fname k' : String} {vals : List Int}
    (h : fieldStep args maps g_in idxOpt g_out fname vals = Except.ok g2)
    (hne : k' ≠ fname) : lk k' g2 = lk k' g_out := by
  rw [fieldStep] at h
  cases hh : lk args.halo_id g_in with
  | none =>
    simp only [hh] at h
    injection h with h
    rw [← h]
  | some hv =>
    simp only [hh] at h
    by_cases hlen : hv.length = 0
    · rw [if_pos hlen] at h
      injection h with h
      rw [← h]
    · rw [if_neg hlen] at h
      cases hrw : rewriteField args maps idxOpt fname vals with
      | error e => simp only [hrw] at h; exact Except.noConfusion h
      | ok w =>
        simp only [hrw] at h
        injection h with h
        rw [← h]
        exact lk_setFieldVals_ne w hne

theorem fieldStep_isSome {args : Args} {maps : IDMaps} {g_in : HGroup}
    {idxOpt : Option (List Nat)} {g_out g2 : HGroup} {fname k' : String} {vals : List Int}
    (h : fieldStep args maps g_in idxOpt g_out fname vals = Except.ok g2)
    (hs : (lk k' g_out).isSome) : (lk k' g2).isSome := by
  rw [fieldStep] at h
  cases hh : lk args.halo_id g_in with
  | none =>
    simp only [hh] at h
    injection h with h
    rw [← h]
    exact hs
  | some hv =>
    simp only [hh] at h
    by_cases hlen : hv.length = 0
    · rw [if_pos hlen] at h
      injection h with h
      rw [← h]
      exact hs
    · rw [if_neg hlen] at h
      cases hrw : rewriteField args maps idxOpt fname vals with
      | error e => simp only [hrw] at h; exact Except.noConfusion h
      | ok w =>
        simp only [hrw] at h
        injection h with h
        rw [← h]
        exact isSome_setFieldVals w hs

theorem processFields_cons_ok {args : Args} {maps : IDMaps} {g_in : HGroup}
    {idxOpt : Option (List Nat)} {g_out g' : HGroup} {fname : String} {vals : List Int}
    {rest : List (String × List Int)}
    (h : processFields args maps g_in idxOpt g_out ((fname, vals) :: rest) = (g', none)) :
    ∃ g2, fieldStep args maps g_in idxOpt g_out fname vals = Except.ok g2 ∧
      processFields args maps g_in idxOpt g2 rest = (g', none) := by
  rw [processFields] at h
  cases hst : fieldStep args maps g_in idxOpt g_out fname vals with
  | error e =>
    rw [hst] at h
    injection h with _ h2
    exact Option.noConfusion h2
  | ok g2 =>
    rw [hst] at h
    exact ⟨g2, rfl, h⟩

theorem processFields_skip_all {args : Args} {maps : IDMaps} {g_in : HGroup}
    {idxOpt : Option (List Nat)}
    (hskip : lk args.halo_id g_in = none ∨
      ∃ hv, lk args.halo_id g_in = some hv ∧ hv.length = 0) :
    ∀ (l : List (String × List Int)) (g_out : HGroup),
      processFields args maps g_in idxOpt g_out l = (g_out, none) := by
  intro l
  induction l with
  | nil => intro g_out; rfl
  | cons p rest ih =>
    intro g_out
    obtain ⟨fname, vals⟩ := p
    rw [processFields, fieldStep_ok_skip hskip]
    exact ih g_out

theorem processFields_preserve {args : Args} {maps : IDMaps} {g_in : HGroup}
    {idxOpt : Option (List Nat)} {fname : String} :
    ∀ {l : List (String × List Int)} {g_out g' : HGroup},
      processFields args maps g_in idxOpt g_out l = (g', none) →
      (∀ name ∈ l.map Prod.fst, name ≠ fname) →
      lk fname g' = lk fname g_out := by
  intro l
  induction l with
  | nil =>
    intro g_out g' h _
    rw [processFields] at h
    injection h with h1 _
    rw [h1]
  | cons p rest ih =>
    intro g_out g' h hne
    obtain ⟨fn0, v0⟩ := p
    rcases processFields_cons_ok h with ⟨g2, hst, hrec⟩
    have hne0 : fname ≠ fn0 := by
      intro he
      exact hne fn0 (by simp) he.symm
    rw [ih hrec (fun name hn => hne name (List.mem_cons_of_mem _ hn))]
    exact fieldStep_lk_ne hst hne0

/-- The workhorse for pass 2: if the field loop over a record group
finished without error, every listed field was rewritten and the output
group holds the rewritten values. -/
theorem processFields_main {args : Args} {maps : IDMaps} {g_in : HGroup}
    {idxOpt : Option (List Nat)} {hv : List Int}
    (hh : lk args.halo_id g_in = some hv) (hlen : hv.length ≠ 0) :
    ∀ {l : List (String × List Int)} {g_out g' : HGroup} {fname : String} {vals : List Int},
      processFields args maps g_in idxOpt g_out l = (g', none) →
      (l.map Prod.fst).Nodup → (fname, vals) ∈ l → (lk fname g_out).isSome →
      ∃ w, rewriteField args maps idxOpt fname vals = Except.ok w ∧ lk fname g' = some w := by
  intro l
  induction l with
  | nil => intro _ _ _ _ _ _ hmem _; cases hmem
  | cons p rest ih =>
    intro g_out g' fname vals h hnd hmem hsome
    obtain ⟨fn0, v0⟩ := p
    rcases processFields_cons_ok h with ⟨g2, hst, hrec⟩
    rcases List.mem_cons.mp hmem with he | hm
    · injection he with he1 he2
      subst he1 he2
      rcases fieldStep_ok_rewrite hst hh hlen with ⟨w, hrw, hg2⟩
      refine ⟨w, hrw, ?_⟩
      simp only [List.map_cons, List.nodup_cons] at hnd
      have hrest : ∀ name ∈ rest.map Prod.fst, name ≠ fname := by
        intro name hn he
        subst he
        exact hnd.1 hn
      rw [processFields_preserve hrec hrest, hg2]
      exact lk_setFieldVals_self w hsome
    · simp only [List.map_cons, List.nodup_cons] at hnd
      exact ih hrec hnd.2 hm (fieldStep_isSome hst hsome)

theorem pass2Go_cons_ok {args : Args} {sidx : SnapIdx} {maps : IDMaps}
    {out out' : List (String × HGroup)} {key : String} {g : HGroup}
    {rest : List (String × HGroup)}
    (h : pass2Go args sidx maps out ((key, g) :: rest) = (out', none)) :
    ∃ g2, processFields args maps g (lk key sidx) g g = (g2, none) ∧
      pass2Go args sidx maps (out ++ [(key, g2)]) rest = (out', none) := by
  rw [pass2Go] at h
  cases hpf : processFields args maps g (lk key sidx) g g with
  | mk g2 err =>
    cases err with
    | none =>
      rw [hpf] at h
      exact ⟨g2, rfl, h⟩
    | some e =>
      rw [hpf] at h
      injection h with _ h2
      exact Option.noConfusion h2

theorem pass2Go_preserve {args : Args} {sidx : SnapIdx} {maps : IDMaps} {key : String}
    {g0 : HGroup} :
    ∀ {l out out'}, pass2Go args sidx maps out l = (out', none) →
      lk key out = some g0 → lk key out' = some g0 := by
  intro l
  induction l with
  | nil =>
    intro out out' h hs
    rw [pass2Go] at h
    injection h with h1 _
    rw [← h1]
    exact hs
  | cons p rest ih =>
    intro out out' h hs
    obtain ⟨k0, g⟩ := p
    rcases pass2Go_cons_ok h with ⟨g2, _, hrec⟩
    exact ih hrec (lk_append_of_some _ hs)

/-- The workhorse for the group loop: if pass 2 finished without error,
every input group was copied and fully processed, and the output file
holds the processed group. -/
theorem pass2Go_main {args : Args} {sidx : SnapIdx} {maps : IDMaps} {key : String}
    {g : HGroup} :
    ∀ {l out out'}, pass2Go args sidx maps out l = (out', none) →
      (l.map Prod.fst).Nodup → (key, g) ∈ l → lk key out = none →
      ∃ g2, processFields args maps g (lk key sidx) g g = (g2, none) ∧
        lk key out' = some g2 := by
  intro l
  induction l with
  | nil => intro _ _ _ _ hmem _; cases hmem
  | cons p rest ih =>
    intro out out' h hnd hmem hnone
    obtain ⟨k0, g0⟩ := p
    rcases pass2Go_cons_ok h with ⟨g2, hpf, hrec⟩
    rcases List.mem_cons.mp hmem with he | hm
    · injection he with he1 he2
      subst he1 he2
      refine ⟨g2, hpf, ?_⟩
      refine pass2Go_preserve hrec ?_
      rw [lk_append_of_none _ hnone, lk_cons, if_pos rfl]
    · simp only [List.map_cons, List.nodup_cons] at hnd
      have hk0 : k0 ≠ key := by
        intro he
        subst he
        exact hnd.1 (List.mem_map.mpr ⟨(k0, g), hm, rfl⟩)
      refine ih hrec hnd.2 hm ?_
      rw [lk_append_of_none _ hnone, lk_cons, if_neg hk0]
      rfl

/-- Inversion of a successful full run: pass 1 succeeded and pass 2 ran to
completion from the empty output file. -/
theorem sort_and_write_ok_inv {f_in : HFile} {args : Args} {snapKeys : List String}
    {snapNums : String → Int} {out : List (String × HGroup)}
    (h : sort_and_write_file f_in args snapKeys snapNums = (out, none)) :
    ∃ sidx maps, pass1 f_in args snapKeys snapNums = Except.ok (sidx, maps) ∧
      pass2Go args sidx maps [] f_in = (out, none) := by
  rw [sort_and_write_file] at h
  cases hp1 : pass1 f_in args snapKeys snapNums with
  | error e =>
    rw [hp1] at h
    injection h with _ h2
    exact Option.noConfusion h2
  | ok p =>
    rw [hp1] at h
    obtain ⟨sidx, maps⟩ := p
    exact ⟨sidx, maps, rfl, h⟩

theorem rewriteField_ok_id {args : Args} {maps : IDMaps} {gIdx : List Nat}
    {fname : String} {vals w : List Int}
    (h : rewriteField args maps (some gIdx) fname vals = Except.ok w)
    (hid : args.ID_fields.contains fname = true) :
    ∃ rv, mapE (remapValue maps args.index_mult_factor) vals = Except.ok rv ∧
      mapE (getE rv) gIdx = Except.ok w := by
  rw [rewriteField] at h
  rw [if_pos hid] at h
  cases hmv : mapE (remapValue maps args.index_mult_factor) vals with
  | error e => simp only [hmv] at h; exact Except.noConfusion h
  | ok rv =>
    simp only [hmv] at h
    exact ⟨rv, rfl, h⟩

theorem remapValue_eq_ok {maps : IDMaps} {mult v nv : Int} {t : Table}
    (h1 : lk (temporalID_to_snapnum v mult) maps = some t) (h2 : lk v t = some nv) :
    remapValue maps mult v = Except.ok nv := by
  rw [remapValue]
  simp only [h1, h2]

/-! ### The canonical remap-table computation -/

/-- The encoder of one fixed snapshot is injective in the local index. -/
theorem encode_injective (s mult : Int) :
    Function.Injective (fun j : Nat => index_to_temporalID (j : Int) s mult) := by
  intro a b h
  simp only [index_to_temporalID, add_right_inj] at h
  exact Nat.cast_injective h

/-- Looking up the old temporal ID of record `i` in a canonically numbered
snapshot's remap table yields the new temporal ID of its sorted position
`k` (with `indices[k] = i`). -/
theorem table_lookup_canonical {s mult : Int} {n : Nat} {indices : List Nat}
    (hperm : indices.Perm (List.range n)) {i k : Nat}
    (hik : indices[k]? = some i) :
    lk (index_to_temporalID (i : Int) s mult)
      (dictOfPairs ((indices.map (fun j : Nat => index_to_temporalID (j : Int) s mult)).zip
        (newHaloIDs indices.length s mult)))
      = some (index_to_temporalID (k : Int) s mult) := by
  have hndi : indices.Nodup := hperm.symm.nodup (List.nodup_range n)
  have hnd : (indices.map (fun j : Nat => index_to_temporalID (j : Int) s mult)).Nodup :=
    hndi.map (encode_injective s mult)
  have hlen : (indices.map (fun j : Nat => index_to_temporalID (j : Int) s mult)).length =
      (newHaloIDs indices.length s mult).length := by
    rw [List.length_map, newHaloIDs, List.length_map, List.length_range]
  have hkeys :
      (((indices.map (fun j : Nat => index_to_temporalID (j : Int) s mult)).zip
        (newHaloIDs indices.length s mult)).map Prod.fst).Nodup := by
    rw [List.map_fst_zip _ _ (le_of_eq hlen)]
    exact hnd
  rw [dictOfPairs_of_nodup hkeys]
  have hgetk : (indices.map (fun j : Nat => index_to_temporalID (j : Int) s mult))[k]? =
      some (index_to_temporalID (i : Int) s mult) := by
    rw [List.getElem?_map, hik]
    rfl
  rw [lk_zip hnd hgetk]
  have hk : k < indices.length := (List.getElem?_eq_some.mp hik).1
  rw [newHaloIDs, List.getElem?_map, List.getElem?_range hk]
  rfl

/-- After a successful pass 1, for a non-empty canonically numbered
snapshot `gk` whose snapshot number `s` is positive and unique, the
aggregate remap lookup sends `encode(s, i)` to `encode(s, k)` where `k` is
record `i`'s sorted position. -/
theorem pass1_remap_canonical {f_in : HFile} {args : Args} {snapKeys : List String}
    {snapNums : String → Int} {sidx : SnapIdx} {maps : IDMaps} {gk : String} {g : HGroup}
    {old : List Int} {n : Nat} {indices : List Nat}
    (hp1 : pass1 f_in args snapKeys snapNums = Except.ok (sidx, maps))
    (hnds : snapKeys.Nodup) (hmem : gk ∈ snapKeys)
    (huniq : ∀ kk ∈ snapKeys, snapNums kk = snapNums gk → kk = gk)
    (hs0 : 0 < snapNums gk)
    (hg : lk gk f_in = some g) (hold : lk args.halo_id g = some old)
    (hcanon : old = (List.range n).map
      (fun j : Nat => index_to_temporalID (j : Int) (snapNums gk) args.index_mult_factor))
    (hn : 0 < n) (hnM : (n : Int) ≤ args.index_mult_factor)
    (hsi : get_sort_indices g args.sort_fields = Except.ok indices)
    (hperm : indices.Perm (List.range n))
    {i k : Nat} (hik : indices[k]? = some i) :
    remapValue maps args.index_mult_factor
        (index_to_temporalID (i : Int) (snapNums gk) args.index_mult_factor) =
      Except.ok (index_to_temporalID (k : Int) (snapNums gk) args.index_mult_factor) := by
  have hlenold : old.length = n := by
    rw [hcanon, List.length_map, List.length_range]
  have hidxlt : ∀ j ∈ indices, j < old.length := by
    intro j hj
    rw [hlenold]
    exact List.mem_range.mp (hperm.mem_iff.mp hj)
  have hms : mapE (getE old) indices = Except.ok (indices.map (fun j => old.getD j 0)) :=
    mapE_getE hidxlt
  have hgetD : ∀ j ∈ indices, old.getD j 0 =
      index_to_temporalID (j : Int) (snapNums gk) args.index_mult_factor := by
    intro j hj
    have hjn : j < n := List.mem_range.mp (hperm.mem_iff.mp hj)
    rw [List.getD_eq_getElem?_getD, hcanon, List.getElem?_map, List.getElem?_range hjn]
    rfl
  have hsorted : indices.map (fun j => old.getD j 0) =
      indices.map (fun j : Nat => index_to_temporalID (j : Int) (snapNums gk) args.index_mult_factor) :=
    List.map_congr_left hgetD
  rcases pass1_ok_inv hp1 with ⟨maps0, hgo, hmaps⟩
  have hlen0 : old.length ≠ 0 := by
    rw [hlenold]
    omega
  have hfound := pass1Go_lk_maps_found hgo hnds hmem huniq hg hold hlen0 hsi hms
  have hsnap : temporalID_to_snapnum
      (index_to_temporalID (i : Int) (snapNums gk) args.index_mult_factor)
      args.index_mult_factor = snapNums gk := by
    have hin : i < n := by
      have : i ∈ indices := List.mem_iff_getElem?.mpr ⟨k, hik⟩
      exact List.mem_range.mp (hperm.mem_iff.mp this)
    refine snapnum_of_encode hs0.le (Int.ofNat_nonneg i) ?_
    exact lt_of_lt_of_le (by exact_mod_cast hin) hnM
  have hlk : lk (snapNums gk) maps =
      some (dictOfPairs ((indices.map (fun j => old.getD j 0)).zip
        (newHaloIDs indices.length (snapNums gk) args.index_mult_factor))) := by
    rw [hmaps, lk_pyInsert_ne maps0 _ hs0.ne.symm]
    exact hfound
  rw [hsorted] at hlk
  refine remapValue_eq_ok ?_ (table_lookup_canonical hperm hik)
  rw [hsnap]
  exact hlk

theorem getE_ok_iff {l : List Int} {i : Nat} {b : Int} :
    getE l i = Except.ok b ↔ l[i]? = some b := by
  rw [getE]
  cases h : l[i]? with
  | none =>
    constructor
    · intro hc; exact Except.noConfusion hc
    · intro hc; exact Option.noConfusion hc
  | some v =>
    constructor
    · intro hc; injection hc with hc; rw [hc]
    · intro hc; injection hc with hc; rw [hc]

/-- A successful field rewrite implies the group had an entry in
`snapshot_indices` (otherwise line 252 raises `KeyError`). -/
theorem rewriteField_ok_some_idx {args : Args} {maps : IDMaps} {idxOpt : Option (List Nat)}
    {fname : String} {vals w : List Int}
    (h : rewriteField args maps idxOpt fname vals = Except.ok w) :
    ∃ gIdx, idxOpt = some gIdx := by
  cases idxOpt with
  | some gIdx => exact ⟨gIdx, rfl⟩
  | none =>
    rw [rewriteField] at h
    cases htw : (if args.ID_fields.contains fname then
        mapE (remapValue maps args.index_mult_factor) vals else Except.ok vals) with
    | error e => simp only [htw] at h; exact Except.noConfusion h
    | ok tw => simp only [htw] at h; exact Except.noConfusion h

/-- Every entry of the `snapshot_indices` dict produced by the pass-1 loop
either was already in the accumulator or is the `get_sort_indices` result
of the corresponding non-empty snapshot group. -/
theorem pass1Go_sidx_inv {f_in : HFile} {args : Args} {snapNums : String → Int} :
    ∀ {l : List String} {sidx : SnapIdx} {maps : IDMaps} {res : SnapIdx × IDMaps},
      pass1Go f_in args snapNums l sidx maps = Except.ok res →
      ∀ {gk : String} {gIdx : List Nat}, lk gk res.1 = some gIdx →
        lk gk sidx = some gIdx ∨
        ∃ g old, lk gk f_in = some g ∧ lk args.halo_id g = some old ∧ old.length ≠ 0 ∧
          get_sort_indices g args.sort_fields = Except.ok gIdx := by
  intro l
  induction l with
  | nil =>
    intro sidx maps res h gk gIdx hlk
    rw [pass1Go] at h
    injection h with h
    subst h
    exact Or.inl hlk
  | cons k rest ih =>
    intro sidx maps res h gk gIdx hlk
    rcases pass1Go_cons h with ⟨sidx2, maps2, hst, hgo⟩
    rcases pass1Step_ok_inv hst with ⟨g, old, hg, hold, hcase⟩
    rcases hcase with ⟨hlenz, hse, _⟩ | ⟨hlen, indices, old_sorted, hsi, _, hse, _⟩
    · subst hse
      exact ih hgo hlk
    · subst hse
      rcases ih hgo hlk with hin | hfound
      · by_cases hk : gk = k
        · subst hk
          rw [lk_pyInsert_self] at hin
          injection hin with hin
          subst hin
          exact Or.inr ⟨g, old, hg, hold, hlen, hsi⟩
        · rw [lk_pyInsert_ne sidx _ hk] at hin
          exact Or.inl hin
      · exact Or.inr hfound

/-- The content of the remap table pass 1 builds for a non-empty
canonically numbered snapshot with positive, unique snapshot number: the
permuted old IDs zipped with the new IDs. -/
theorem pass1_table_canonical {f_in : HFile} {args : Args} {snapKeys : List String}
    {snapNums : String → Int} {sidx : SnapIdx} {maps : IDMaps} {gk : String} {g : HGroup}
    {old : List Int} {n : Nat} {indices : List Nat}
    (hp1 : pass1 f_in args snapKeys snapNums = Except.ok (sidx, maps))
    (hnds : snapKeys.Nodup) (hmem : gk ∈ snapKeys)
    (huniq : ∀ kk ∈ snapKeys, snapNums kk = snapNums gk → kk = gk)
    (hs0 : 0 < snapNums gk)
    (hg : lk gk f_in = some g) (hold : lk args.halo_id g = some old)
    (hcanon : old = (List.range n).map
      (fun j : Nat => index_to_temporalID (j : Int) (snapNums gk) args.index_mult_factor))
    (hn : 0 < n)
    (hsi : get_sort_indices g args.sort_fields = Except.ok indices)
    (hperm : indices.Perm (List.range n)) :
    lk (snapNums gk) maps =
      some ((indices.map
          (fun j : Nat => index_to_temporalID (j : Int) (snapNums gk) args.index_mult_factor)).zip
        (newHaloIDs indices.length (snapNums gk) args.index_mult_factor)) := by
  have hlenold : old.length = n := by
    rw [hcanon, List.length_map, List.length_range]
  have hidxlt : ∀ j ∈ indices, j < old.length := by
    intro j hj
    rw [hlenold]
    exact List.mem_range.mp (hperm.mem_iff.mp hj)
  have hms : mapE (getE old) indices = Except.ok (indices.map (fun j => old.getD j 0)) :=
    mapE_getE hidxlt
  have hgetD : ∀ j ∈ indices, old.getD j 0 =
      index_to_temporalID (j : Int) (snapNums gk) args.index_mult_factor := by
    intro j hj
    have hjn : j < n := List.mem_range.mp (hperm.mem_iff.mp hj)
    rw [List.getD_eq_getElem?_getD, hcanon, List.getElem?_map, List.getElem?_range hjn]
    rfl
  have hsorted : indices.map (fun j => old.getD j 0) =
      indices.map
        (fun j : Nat => index_to_temporalID (j : Int) (snapNums gk) args.index_mult_factor) :=
    List.map_congr_left hgetD
  rcases pass1_ok_inv hp1 with ⟨maps0, hgo, hmaps⟩
  have hlen0 : old.length ≠ 0 := by
    rw [hlenold]
    omega
  have hfound := pass1Go_lk_maps_found hgo hnds hmem huniq hg hold hlen0 hsi hms
  have hndi : indices.Nodup := hperm.symm.nodup (List.nodup_range n)
  have hnd : (indices.map
      (fun j : Nat => index_to_temporalID (j : Int) (snapNums gk) args.index_mult_factor)).Nodup :=
    hndi.map (encode_injective _ _)
  have hlen : (indices.map
      (fun j : Nat => index_to_temporalID (j : Int) (snapNums gk) args.index_mult_factor)).length =
      (newHaloIDs indices.length (snapNums gk) args.index_mult_factor).length := by
    rw [List.length_map, newHaloIDs, List.length_map, List.length_range]
  have hkeys : (((indices.map
      (fun j : Nat => index_to_temporalID (j : Int) (snapNums gk) args.index_mult_factor)).zip
      (newHaloIDs indices.length (snapNums gk) args.index_mult_factor)).map Prod.fst).Nodup := by
    rw [List.map_fst_zip _ _ (le_of_eq hlen)]
    exact hnd
  rw [hmaps, lk_pyInsert_ne maps0 _ hs0.ne.symm, hfound, hsorted,
    dictOfPairs_of_nodup hkeys]

/-! ### Claim theorems -/

/-- C2: for every snapshot number `s ≥ 0` and local index `0 ≤ i < M`,
decoding the encoded temporal identifier returns the original pair:
`decode(encode(s, i)) = (s, i)` with `encode(s, i) = s * M + i` and decode
by truncating quotient and remainder. -/
theorem codec_round_trip {s i mult : Int} (hs : 0 ≤ s) (hi : 0 ≤ i) (him : i < mult) :
    temporalID_to_snapnum (index_to_temporalID i s mult) mult = s ∧
    temporalID_to_index (index_to_temporalID i s mult) mult = i := by
  have h1 := snapnum_of_encode hs hi him
  refine ⟨h1, ?_⟩
  rw [temporalID_to_snapnum, index_to_temporalID] at h1
  rw [temporalID_to_index, index_to_temporalID, h1]
  ring

/-- Witness for C2 at `s = 3`, `i = 7`, `M = 10`. -/
theorem codec_round_trip_witness :
    temporalID_to_snapnum (index_to_temporalID 7 3 10) 10 = 3 ∧
    temporalID_to_index (index_to_temporalID 7 3 10) 10 = 7 :=
  codec_round_trip (by decide) (by decide) (by decide)

/-- C6: the spec's literal case: `ForestID = [1, 4, 39, 1, 1, 4]` primary,
`Mass = [4e9, 1e11, 8e8, 7e9, 3e11, 5e6]` secondary, yields the
permutation `[0, 3, 4, 5, 1, 2]`. -/
theorem lexicographic_literal_case :
    get_sort_indices
      [("ForestID", [1, 4, 39, 1, 1, 4]),
       ("Mass", [4000000000, 100000000000, 800000000, 7000000000, 300000000000, 5000000])]
      ["ForestID", "Mass"] = Except.ok [0, 3, 4, 5, 1, 2] := rfl

/-- Counterexample to C7 as stated: `"Nonetheless"` is not equal to
`"none"` case-insensitively, yet `get_sort_indices` *skips* it: the sort
key loop tests `"NONE" in key.upper()`, a substring test.  With
`Nonetheless = [1, 2]` as primary key the claim would force the identity
permutation `[0, 1]`, but the result equals the `Mass`-only sort `[1, 0]`,
identical to the run with the key removed. -/
theorem none_skip_counterexample :
    "Nonetheless".toList.map Char.toLower ≠ "none".toList ∧
    containsNONE "Nonetheless" = true ∧
    lk "Nonetheless" [("Nonetheless", [1, 2]), ("Mass", [2, 1])] = some [1, 2] ∧
    get_sort_indices [("Nonetheless", [1, 2]), ("Mass", [2, 1])] ["Nonetheless", "Mass"] =
      Except.ok [1, 0] ∧
    get_sort_indices [("Nonetheless", [1, 2]), ("Mass", [2, 1])] ["Mass"] =
      Except.ok [1, 0] :=
  ⟨by decide, by decide, rfl, rfl, rfl⟩

/-- C7 (amended): the Sort-Key Resolver skips a configured sort-key name
if and only if its upper-cased form *contains* the substring `"NONE"` (or
the entry is absent); any such name, inserted anywhere in the key list,
leaves the resulting permutation unchanged. -/
theorem none_substring_skip {g : HGroup} {k : String} (hk : containsNONE k = true)
    (l1 l2 : List String) :
    get_sort_indices g (l1 ++ k :: l2) = get_sort_indices g (l1 ++ l2) := by
  rw [get_sort_indices, get_sort_indices, reverse_middle, List.reverse_append,
    collectKeys_skip hk]

/-- Witness for C7's amended claim with the skipped name `"xNONEy"`. -/
theorem none_substring_skip_witness :
    containsNONE "xNONEy" = true ∧
    get_sort_indices [("Mass", [2, 1])] (["Mass"] ++ "xNONEy" :: []) =
      get_sort_indices [("Mass", [2, 1])] (["Mass"] ++ []) :=
  ⟨by decide, none_substring_skip (by decide) ["Mass"] []⟩

/-- C3 is a code bug: on a snapshot whose unique-ID field holds the value
`5` at two distinct positions, pass 1 *succeeds* (no error of any kind is
raised) and `dict(zip(...))` silently keeps only the last pair, producing
a remap table with 1 entry for 2 records. -/
theorem duplicate_ids_silently_collapsed :
    pass1 [("Snap_001", [("ID", [5, 5]), ("Mass", [1, 2])])]
        ⟨["Mass"], "ID", ["ID"], 10⟩ ["Snap_001"] (fun _ => 1) =
      Except.ok ([("Snap_001", [0, 1])], [(1, [(5, 11)]), (0, [(-1, -1)])]) ∧
    lk "ID" [("ID", ([5, 5] : List Int)), ("Mass", [1, 2])] = some [5, 5] ∧
    ([5, 5] : List Int)[0]? = some 5 ∧ ([5, 5] : List Int)[1]? = some 5 ∧
    ([(5, 11)] : Table).length = 1 ∧ ([(5, 11)] : Table).length < 2 :=
  ⟨rfl, rfl, rfl, rfl, rfl, by decide⟩

/-- C8: for every snapshot with `count > 0` records whose participating
sort-key arrays all have length `count`, the index sequence returned by
the Sort-Key Resolver is a permutation of `0 .. count-1`: it has length
`count`, contains no repeated index, and contains every index in range. -/
theorem sort_indices_permutation {g : HGroup} {sf : List String} {idx : List Nat}
    {count : Nat}
    (hok : get_sort_indices g sf = Except.ok idx)
    (hcount : 0 < count)
    (hlen : ∀ name ∈ sf, containsNONE name = false →
      ∀ arr, lk name g = some arr → arr.length = count)
    (hex : ∃ name, name ∈ sf ∧ containsNONE name = false) :
    idx.length = count ∧ idx.Nodup ∧ ∀ m, m < count → m ∈ idx :=
  sort_indices_perm_core hok hlen hex

/-- Witness for C8 on a 2-record snapshot sorted by `Mass`. -/
theorem sort_indices_permutation_witness :
    ([1, 0] : List Nat).length = 2 ∧ ([1, 0] : List Nat).Nodup ∧
      ∀ m, m < 2 → m ∈ ([1, 0] : List Nat) := by
  refine sort_indices_permutation
    (show get_sort_indices [("Mass", [5, 3])] ["Mass"] = Except.ok [1, 0] from rfl)
    (by decide) ?_ ⟨"Mass", List.mem_singleton.mpr rfl, by decide⟩
  intro name hn hc arr harr
  have hname : name = "Mass" := List.mem_singleton.mp hn
  subst hname
  have harr2 : some ([5, 3] : List Int) = some arr :=
    (show lk "Mass" [("Mass", ([5, 3] : List Int))] = some [5, 3] from rfl).symm.trans harr
  injection harr2 with harr2
  rw [← harr2]
  rfl

/-- C10: after pass 1 the aggregate dict's entry under snapshot-number key
`0` is exactly the single-pair table `{-1: -1}` (line 199 *replaces* any
table built for a real snapshot numbered 0), so the rewrite lookup for any
value other than `-1` whose snapshot number computes to `0` raises a
`KeyError` — even when snapshot 0 was non-empty and its table was built
during pass 1. -/
theorem snapshot_zero_table_overwritten {f_in : HFile} {args : Args} {snapKeys : List String}
    {snapNums : String → Int} {sidx : SnapIdx} {maps : IDMaps}
    (hp1 : pass1 f_in args snapKeys snapNums = Except.ok (sidx, maps)) :
    lk 0 maps = some [(-1, -1)] ∧
    ∀ v : Int, v ≠ -1 → temporalID_to_snapnum v args.index_mult_factor = 0 →
      remapValue maps args.index_mult_factor v =
        Except.error "KeyError: old ID not in snapshot remap table" := by
  rcases pass1_ok_inv hp1 with ⟨maps0, _, hmaps⟩
  have hlk0 : lk 0 maps = some [(-1, -1)] := by
    rw [hmaps]
    exact lk_pyInsert_self _ _ _
  refine ⟨hlk0, ?_⟩
  intro v hv hsnap
  have hlkv : lk v [((-1 : Int), (-1 : Int))] = none := by
    rw [lk_cons, if_neg (fun he => hv he.symm)]
    rfl
  rw [remapValue, hsnap]
  simp only [hlk0, hlkv]

/-- Witness for C10: a dataset whose snapshot 0 is non-empty (IDs `[3, 7]`,
masses `[5, 3]`); its table is built in pass 1 and then replaced, and the
lookup of the valid snapshot-0 ID `3` fails. -/
theorem snapshot_zero_table_overwritten_witness :
    lk 0 [((0 : Int), ([((-1 : Int), (-1 : Int))] : Table))] = some [(-1, -1)] ∧
    remapValue [((0 : Int), ([((-1 : Int), (-1 : Int))] : Table))] 10 3 =
      Except.error "KeyError: old ID not in snapshot remap table" := by
  have h := snapshot_zero_table_overwritten
    (show pass1 [("Snap_000", [("ID", [3, 7]), ("Mass", [5, 3])])]
        ⟨["Mass"], "ID", ["ID"], 10⟩ ["Snap_000"] (fun _ => 0) =
      Except.ok ([("Snap_000", [1, 0])], [(0, [(-1, -1)])]) from rfl)
  exact ⟨h.1, h.2 3 (by decide) (by decide)⟩

/-- C1 (amended): cross-reference preservation holds for every referenced
snapshot whose snapshot number `s` is at least 1 (and unique in the
dataset), for well-formed canonical input.  If the run succeeds, a
reference value `v = encode(s, i)` stored at position `p` of an ID field,
where record `i` of snapshot `s` moves to sorted position `k`, is written
to the output as `encode(s, k)` at the output slot `m` corresponding to
input position `p` (`gIdx[m] = p`).  For `s = 0` the property fails — see
the counterexample — because line 199 replaces the snapshot-0 remap
table with the sentinel table. -/
theorem cross_reference_preserved {f_in : HFile} {args : Args} {snapKeys : List String}
    {snapNums : String → Int} {out : List (String × HGroup)}
    {rk : String} {rg : HGroup} {rold : List Int} {n : Nat} {rindices : List Nat}
    {gk : String} {g : HGroup} {hvals : List Int} {fname : String} {vals : List Int}
    {p i k : Nat}
    (hrun : sort_and_write_file f_in args snapKeys snapNums = (out, none))
    (hndf : (f_in.map Prod.fst).Nodup)
    (hnds : snapKeys.Nodup) (hrmem : rk ∈ snapKeys)
    (huniq : ∀ kk ∈ snapKeys, snapNums kk = snapNums rk → kk = rk)
    (hs0 : 0 < snapNums rk)
    (hrg : lk rk f_in = some rg) (hrold : lk args.halo_id rg = some rold)
    (hcanon : rold = (List.range n).map
      (fun j : Nat => index_to_temporalID (j : Int) (snapNums rk) args.index_mult_factor))
    (hn : 0 < n) (hnM : (n : Int) ≤ args.index_mult_factor)
    (hrsi : get_sort_indices rg args.sort_fields = Except.ok rindices)
    (hrperm : rindices.Perm (List.range n))
    (hik : rindices[k]? = some i)
    (hgmem : (gk, g) ∈ f_in) (hgnd : (g.map Prod.fst).Nodup)
    (hfmem : (fname, vals) ∈ g)
    (hisid : args.ID_fields.contains fname = true)
    (hhv : lk args.halo_id g = some hvals) (hhvne : hvals.length ≠ 0)
    (hv : vals[p]? =
      some (index_to_temporalID (i : Int) (snapNums rk) args.index_mult_factor)) :
    ∃ (outg : HGroup) (gIdx : List Nat) (w : List Int),
      lk gk out = some outg ∧
      get_sort_indices g args.sort_fields = Except.ok gIdx ∧
      lk fname outg = some w ∧
      ∀ m : Nat, gIdx[m]? = some p →
        w[m]? = some (index_to_temporalID (k : Int) (snapNums rk) args.index_mult_factor) := by
  rcases sort_and_write_ok_inv hrun with ⟨sidx, maps, hp1, hp2⟩
  rcases pass2Go_main hp2 hndf hgmem rfl with ⟨outg, hpf, hout⟩
  have hvsome : (lk fname g).isSome := by
    rw [lk_of_mem_nodup hgnd hfmem]
    rfl
  rcases processFields_main hhv hhvne hpf hgnd hfmem hvsome with ⟨w, hrw, hlkw⟩
  rcases rewriteField_ok_some_idx hrw with ⟨gIdx, hidx⟩
  rcases pass1_ok_inv hp1 with ⟨maps0, hgo, _⟩
  rcases pass1Go_sidx_inv hgo (show lk gk (sidx, maps0).1 = some gIdx from hidx) with
    habs | ⟨g2, old2, hg2, _, _, hgsi⟩
  · exact Option.noConfusion habs
  have hg2g : g2 = g := by
    have hl := lk_of_mem_nodup hndf hgmem
    rw [hl] at hg2
    injection hg2 with h
    exact h.symm
  subst hg2g
  rw [hidx] at hrw
  rcases rewriteField_ok_id hrw hisid with ⟨rv, hmv, hpermE⟩
  have hrem := pass1_remap_canonical hp1 hnds hrmem huniq hs0 hrg hrold hcanon hn hnM
    hrsi hrperm hik
  rcases mapE_ok_get hmv hv with ⟨b, hb, hrvp⟩
  rw [hrem] at hb
  injection hb with hb
  subst hb
  refine ⟨outg, gIdx, w, hout, hgsi, hlkw, ?_⟩
  intro m hm
  rcases mapE_ok_get hpermE hm with ⟨b2, hb2, hwm⟩
  have hb2' : rv[p]? = some b2 := getE_ok_iff.mp hb2
  rw [hrvp] at hb2'
  injection hb2' with hb2'
  exact hwm.trans (congrArg some hb2'.symm)

/-- Counterexample to C1 as stated ("including s = 0"): dataset with the
single non-empty snapshot numbered 0, `ID = [0, 1]` (the canonical
encodings of records 0 and 1 with `M = 10`), cross-reference field
`Head = [1, 1]` and sort key `Mass = [5, 3]`.  The value `v = 1` at
position 0 of `Head` decodes to snapshot 0, local index 1; the sort
permutation is `[1, 0]`, so record 0 moves to position 1 and the slot
corresponding to input position 0 is output slot 1, which the claim says
must hold `encode(0, 0) = 0`.  Instead the run aborts with a `KeyError`
(the snapshot-0 table was replaced by `{-1: -1}` at line 199) and the
output group still holds the copied original `Head = [1, 1]`: slot 1
holds `1 ≠ 0`. -/
theorem cross_reference_s0_counterexample :
    (sort_and_write_file
        [("Snap_000", [("ID", [0, 1]), ("Head", [1, 1]), ("Mass", [5, 3])])]
        ⟨["Mass"], "ID", ["ID", "Head"], 10⟩ ["Snap_000"] (fun _ => 0)).2 =
      some "KeyError: old ID not in snapshot remap table" ∧
    temporalID_to_snapnum 1 10 = 0 ∧
    get_sort_indices [("ID", [0, 1]), ("Head", [1, 1]), ("Mass", [5, 3])] ["Mass"] =
      Except.ok [1, 0] ∧
    lk "Snap_000" (sort_and_write_file
        [("Snap_000", [("ID", [0, 1]), ("Head", [1, 1]), ("Mass", [5, 3])])]
        ⟨["Mass"], "ID", ["ID", "Head"], 10⟩ ["Snap_000"] (fun _ => 0)).1 =
      some [("ID", [0, 1]), ("Head", [1, 1]), ("Mass", [5, 3])] ∧
    lk "Head" [("ID", ([0, 1] : List Int)), ("Head", [1, 1]), ("Mass", [5, 3])] =
      some [1, 1] ∧
    ([1, 1] : List Int)[1]? = some 1 ∧
    (1 : Int) ≠ index_to_temporalID 0 0 10 :=
  ⟨rfl, rfl, rfl, rfl, rfl, rfl, by decide⟩

/-- Witness for C1's amended claim on a 2-record snapshot numbered 1 with
`M = 10`: the `Head` reference `10 = encode(1, 0)` at position 0 is
rewritten to `encode(1, 1) = 11` at the corresponding output slot. -/
theorem cross_reference_preserved_witness :
    ∃ (outg : HGroup) (gIdx : List Nat) (w : List Int),
      lk "Snap_001" [("Snap_001",
          ([("ID", [10, 11]), ("Mass", [3, 5]), ("Head", [11, 11])] : HGroup))] = some outg ∧
      get_sort_indices [("ID", [10, 11]), ("Mass", [5, 3]), ("Head", [10, 10])] ["Mass"] =
        Except.ok gIdx ∧
      lk "Head" outg = some w ∧
      ∀ m : Nat, gIdx[m]? = some 0 →
        w[m]? = some (index_to_temporalID ((1 : Nat) : Int) 1 10) :=
  cross_reference_preserved
    (show sort_and_write_file
        [("Snap_001", [("ID", [10, 11]), ("Mass", [5, 3]), ("Head", [10, 10])])]
        ⟨["Mass"], "ID", ["Head", "ID"], 10⟩ ["Snap_001"] (fun _ => 1) =
      ([("Snap_001", [("ID", [10, 11]), ("Mass", [3, 5]), ("Head", [11, 11])])], none)
      from rfl)
    (by decide) (by decide)
    (show "Snap_001" ∈ ["Snap_001"] from by decide)
    (by decide) (by decide)
    (show lk "Snap_001"
        [("Snap_001", ([("ID", [10, 11]), ("Mass", [5, 3]), ("Head", [10, 10])] : HGroup))] =
      some [("ID", [10, 11]), ("Mass", [5, 3]), ("Head", [10, 10])] from rfl)
    (show lk "ID" [("ID", ([10, 11] : List Int)), ("Mass", [5, 3]), ("Head", [10, 10])] =
      some [10, 11] from rfl)
    (show ([10, 11] : List Int) = (List.range 2).map
        (fun j : Nat => index_to_temporalID (j : Int) 1 10) from by decide)
    (by decide)
    (show ((2 : Nat) : Int) ≤ 10 from by decide)
    (show get_sort_indices [("ID", [10, 11]), ("Mass", [5, 3]), ("Head", [10, 10])] ["Mass"] =
      Except.ok [1, 0] from rfl)
    (show ([1, 0] : List Nat).Perm (List.range 2) from by decide)
    (show ([1, 0] : List Nat)[1]? = some 0 from rfl)
    (show ("Snap_001", ([("ID", [10, 11]), ("Mass", [5, 3]), ("Head", [10, 10])] : HGroup)) ∈
      [("Snap_001", ([("ID", [10, 11]), ("Mass", [5, 3]), ("Head", [10, 10])] : HGroup))]
      from by decide)
    (by decide)
    (show ("Head", ([10, 10] : List Int)) ∈
      ([("ID", [10, 11]), ("Mass", [5, 3]), ("Head", [10, 10])] : HGroup) from by decide)
    (by decide)
    (show lk "ID" [("ID", ([10, 11] : List Int)), ("Mass", [5, 3]), ("Head", [10, 10])] =
      some [10, 11] from rfl)
    (by decide)
    (show ([10, 10] : List Int)[0]? =
      some (index_to_temporalID ((0 : Nat) : Int) 1 10) from by decide)

/-- Counterexample to C4 as stated: two runs on non-empty snapshots with
pairwise-distinct unique IDs where the rewritten unique-ID field does not
hold the sequence `encode(s, 0..count-1)`.  (1) Snapshot numbered 0 with
IDs `[3, 7]`: pass 1 builds its table but line 199 replaces it, pass 2
aborts with `KeyError`, and the output unique-ID field still holds the
copied `[3, 7]`, not `[0, 1] = encode(0, 0..1)`.  (2) Snapshot numbered 1
with distinct but non-canonical IDs `[23, 7]` (`M = 10`): the value `23`
decodes to snapshot 2, there is no table for snapshot 2, and the run
aborts. -/
theorem remap_uniqueness_counterexample :
    sort_and_write_file [("Snap_000", [("ID", [3, 7]), ("Mass", [5, 3])])]
        ⟨["Mass"], "ID", ["ID"], 10⟩ ["Snap_000"] (fun _ => 0) =
      ([("Snap_000", [("ID", [3, 7]), ("Mass", [5, 3])])],
        some "KeyError: old ID not in snapshot remap table") ∧
    (3 : Int) ≠ 7 ∧
    ([3, 7] : List Int) ≠
      (List.range 2).map (fun j : Nat => index_to_temporalID (j : Int) 0 10) ∧
    sort_and_write_file [("Snap_001", [("ID", [23, 7]), ("Mass", [5, 3])])]
        ⟨["Mass"], "ID", ["ID"], 10⟩ ["Snap_001"] (fun _ => 1) =
      ([("Snap_001", [("ID", [23, 7]), ("Mass", [5, 3])])],
        some "KeyError: no remap table for snapshot number") ∧
    (23 : Int) ≠ 7 ∧
    ([23, 7] : List Int) ≠
      (List.range 2).map (fun j : Nat => index_to_temporalID (j : Int) 1 10) :=
  ⟨rfl, by decide, by decide, rfl, by decide, by decide⟩

/-- C4 (amended): for every non-empty snapshot with *positive*, unique
snapshot number whose unique-ID field holds the canonical (hence pairwise
distinct) encodings, the per-snapshot remap table pairs the old IDs (in
sorted order, without repetition — a bijection onto the new IDs), and
after the rewrite the unique-ID field holds exactly
`encode(s, 0), ..., encode(s, count-1)` in new record order.  For
snapshot number 0, or for IDs outside the snapshot's own bucket, the run
aborts instead — see the counterexample. -/
theorem remap_bijection_and_renumbering {f_in : HFile} {args : Args} {snapKeys : List String}
    {snapNums : String → Int} {out : List (String × HGroup)} {sidx : SnapIdx} {maps : IDMaps}
    {rk : String} {rg : HGroup} {rold : List Int} {n : Nat} {rindices : List Nat}
    (hrun : sort_and_write_file f_in args snapKeys snapNums = (out, none))
    (hp1 : pass1 f_in args snapKeys snapNums = Except.ok (sidx, maps))
    (hndf : (f_in.map Prod.fst).Nodup)
    (hnds : snapKeys.Nodup) (hrmem : rk ∈ snapKeys)
    (huniq : ∀ kk ∈ snapKeys, snapNums kk = snapNums rk → kk = rk)
    (hs0 : 0 < snapNums rk)
    (hrg : lk rk f_in = some rg) (hrgm : (rk, rg) ∈ f_in)
    (hrnd : (rg.map Prod.fst).Nodup)
    (hrold : lk args.halo_id rg = some rold)
    (hidmem : (args.halo_id, rold) ∈ rg)
    (hcanon : rold = (List.range n).map
      (fun j : Nat => index_to_temporalID (j : Int) (snapNums rk) args.index_mult_factor))
    (hn : 0 < n) (hnM : (n : Int) ≤ args.index_mult_factor)
    (hrsi : get_sort_indices rg args.sort_fields = Except.ok rindices)
    (hrperm : rindices.Perm (List.range n))
    (hisid : args.ID_fields.contains args.halo_id = true) :
    ∃ (T : Table) (outg : HGroup),
      lk (snapNums rk) maps = some T ∧
      T.map Prod.fst = rindices.map
        (fun j : Nat => index_to_temporalID (j : Int) (snapNums rk) args.index_mult_factor) ∧
      (T.map Prod.fst).Nodup ∧
      (T.map Prod.fst).Perm rold ∧
      T.map Prod.snd = newHaloIDs n (snapNums rk) args.index_mult_factor ∧
      (T.map Prod.snd).Nodup ∧
      lk rk out = some outg ∧
      lk args.halo_id outg =
        some (newHaloIDs n (snapNums rk) args.index_mult_factor) := by
  have hlenr : rindices.length = n := hrperm.length_eq.trans (List.length_range n)
  have hT := pass1_table_canonical hp1 hnds hrmem huniq hs0 hrg hrold hcanon hn hrsi hrperm
  rw [hlenr] at hT
  have hndi : rindices.Nodup := hrperm.symm.nodup (List.nodup_range n)
  have hndAS : (rindices.map (fun j : Nat =>
      index_to_temporalID (j : Int) (snapNums rk) args.index_mult_factor)).Nodup :=
    hndi.map (encode_injective _ _)
  have hlenAS : (rindices.map (fun j : Nat =>
      index_to_temporalID (j : Int) (snapNums rk) args.index_mult_factor)).length =
      (newHaloIDs n (snapNums rk) args.index_mult_factor).length := by
    rw [List.length_map, newHaloIDs, List.length_map, List.length_range, hlenr]
  have hfst := List.map_fst_zip
    (rindices.map (fun j : Nat =>
      index_to_temporalID (j : Int) (snapNums rk) args.index_mult_factor))
    (newHaloIDs n (snapNums rk) args.index_mult_factor) (le_of_eq hlenAS)
  have hsnd := List.map_snd_zip
    (rindices.map (fun j : Nat =>
      index_to_temporalID (j : Int) (snapNums rk) args.index_mult_factor))
    (newHaloIDs n (snapNums rk) args.index_mult_factor) (le_of_eq hlenAS.symm)
  have hpermAS : (rindices.map (fun j : Nat =>
      index_to_temporalID (j : Int) (snapNums rk) args.index_mult_factor)).Perm rold := by
    rw [hcanon]
    exact hrperm.map _
  have hndBS : (newHaloIDs n (snapNums rk) args.index_mult_factor).Nodup :=
    (List.nodup_range n).map (encode_injective _ _)
  -- the rewritten unique-ID field
  rcases sort_and_write_ok_inv hrun with ⟨sidx', maps', hp1', hp2⟩
  rw [hp1] at hp1'
  injection hp1' with hp1'
  have hse : sidx = sidx' := congrArg Prod.fst hp1'
  have hme : maps = maps' := congrArg Prod.snd hp1'
  subst hse hme
  rcases pass2Go_main hp2 hndf hrgm rfl with ⟨outg, hpf, hout⟩
  have hfsome : (lk args.halo_id rg).isSome := by
    rw [hrold]
    rfl
  have hlen0 : rold.length ≠ 0 := by
    rw [hcanon, List.length_map, List.length_range]
    omega
  rcases processFields_main hrold hlen0 hpf hrnd hidmem hfsome with ⟨w, hrw, hlkw⟩
  -- the snapshot's own sidx entry is rindices
  rcases pass1_ok_inv hp1 with ⟨maps0, hgo, _⟩
  have hidxlt : ∀ j ∈ rindices, j < rold.length := by
    intro j hj
    rw [hcanon, List.length_map, List.length_range]
    exact List.mem_range.mp (hrperm.mem_iff.mp hj)
  have hms : mapE (getE rold) rindices =
      Except.ok (rindices.map (fun j => rold.getD j 0)) := mapE_getE hidxlt
  have hsfound : lk rk (sidx, maps0).1 = some rindices :=
    pass1Go_lk_sidx_found hgo hnds hrmem hrg hrold hlen0 hrsi hms
  rw [hsfound] at hrw
  rcases rewriteField_ok_id hrw hisid with ⟨rv, hmv, hpermE⟩
  have hwlen : w.length = n := (mapE_ok_length hpermE).trans hlenr
  have hweq : w = newHaloIDs n (snapNums rk) args.index_mult_factor := by
    refine List.ext_getElem? ?_
    intro m
    by_cases hm : m < n
    · have hmr : rindices[m]? = some rindices[m] :=
        List.getElem?_eq_getElem (by rw [hlenr]; exact hm)
      have hilt : rindices[m] < n := by
        have : rindices[m] ∈ rindices := List.mem_iff_getElem?.mpr ⟨m, hmr⟩
        exact List.mem_range.mp (hrperm.mem_iff.mp this)
      have hvold : rold[rindices[m]]? = some (index_to_temporalID ((rindices[m] : Nat) : Int)
          (snapNums rk) args.index_mult_factor) := by
        rw [hcanon, List.getElem?_map, List.getElem?_range hilt]
        rfl
      rcases mapE_ok_get hmv hvold with ⟨b, hb, hrv⟩
      have hrem := pass1_remap_canonical hp1 hnds hrmem huniq hs0 hrg hrold hcanon hn hnM
        hrsi hrperm hmr
      rw [hrem] at hb
      injection hb with hb
      subst hb
      rcases mapE_ok_get hpermE hmr with ⟨b2, hb2, hwm⟩
      have hb2' : rv[rindices[m]]? = some b2 := getE_ok_iff.mp hb2
      rw [hrv] at hb2'
      injection hb2' with hb2'
      rw [hwm, ← hb2', newHaloIDs, List.getElem?_map, List.getElem?_range hm]
      rfl
    · rw [List.getElem?_eq_none (by rw [hwlen]; omega),
        List.getElem?_eq_none (by rw [newHaloIDs, List.length_map, List.length_range]; omega)]
  exact ⟨_, outg, hT, hfst, by rw [hfst]; exact hndAS, by rw [hfst]; exact hpermAS,
    hsnd, by rw [hsnd]; exact hndBS, hout, by rw [← hweq]; exact hlkw⟩

/-- Witness for C4's amended claim on the 2-record snapshot numbered 1:
the table is `{11 → 10, 10 → 11}` (a bijection) and the rewritten `ID`
field is `[10, 11] = encode(1, 0..1)`. -/
theorem remap_bijection_and_renumbering_witness :
    ∃ (T : Table) (outg : HGroup),
      lk 1 [((1 : Int), ([(11, 10), (10, 11)] : Table)), (0, [(-1, -1)])] = some T ∧
      T.map Prod.fst =
        ([1, 0] : List Nat).map (fun j : Nat => index_to_temporalID (j : Int) 1 10) ∧
      (T.map Prod.fst).Nodup ∧
      (T.map Prod.fst).Perm [10, 11] ∧
      T.map Prod.snd = newHaloIDs 2 1 10 ∧
      (T.map Prod.snd).Nodup ∧
      lk "Snap_001" [("Snap_001",
        ([("ID", [10, 11]), ("Mass", [3, 5]), ("Head", [11, 11])] : HGroup))] = some outg ∧
      lk "ID" outg = some (newHaloIDs 2 1 10) :=
  remap_bijection_and_renumbering
    (show sort_and_write_file
        [("Snap_001", [("ID", [10, 11]), ("Mass", [5, 3]), ("Head", [10, 10])])]
        ⟨["Mass"], "ID", ["Head", "ID"], 10⟩ ["Snap_001"] (fun _ => 1) =
      ([("Snap_001", [("ID", [10, 11]), ("Mass", [3, 5]), ("Head", [11, 11])])], none)
      from rfl)
    (show pass1
        [("Snap_001", [("ID", [10, 11]), ("Mass", [5, 3]), ("Head", [10, 10])])]
        ⟨["Mass"], "ID", ["Head", "ID"], 10⟩ ["Snap_001"] (fun _ => 1) =
      Except.ok ([("Snap_001", [1, 0])], [(1, [(11, 10), (10, 11)]), (0, [(-1, -1)])])
      from rfl)
    (by decide) (by decide)
    (show "Snap_001" ∈ ["Snap_001"] from by decide)
    (by decide) (by decide)
    (show lk "Snap_001"
        [("Snap_001", ([("ID", [10, 11]), ("Mass", [5, 3]), ("Head", [10, 10])] : HGroup))] =
      some [("ID", [10, 11]), ("Mass", [5, 3]), ("Head", [10, 10])] from rfl)
    (show ("Snap_001", ([("ID", [10, 11]), ("Mass", [5, 3]), ("Head", [10, 10])] : HGroup)) ∈
      [("Snap_001", ([("ID", [10, 11]), ("Mass", [5, 3]), ("Head", [10, 10])] : HGroup))]
      from by decide)
    (by decide)
    (show lk "ID" [("ID", ([10, 11] : List Int)), ("Mass", [5, 3]), ("Head", [10, 10])] =
      some [10, 11] from rfl)
    (show ("ID", ([10, 11] : List Int)) ∈
      ([("ID", [10, 11]), ("Mass", [5, 3]), ("Head", [10, 10])] : HGroup) from by decide)
    (show ([10, 11] : List Int) = (List.range 2).map
        (fun j : Nat => index_to_temporalID (j : Int) 1 10) from by decide)
    (by decide)
    (show ((2 : Nat) : Int) ≤ 10 from by decide)
    (show get_sort_indices
        [("ID", [10, 11]), ("Mass", [5, 3]), ("Head", [10, 10])] ["Mass"] =
      Except.ok [1, 0] from rfl)
    (show ([1, 0] : List Nat).Perm (List.range 2) from by decide)
    (by decide)

/-- C5: sentinel invariance.  In a successful run with positive multiplier
and non-negative snapshot numbering, every `-1` stored in an ID field of a
processed record group is written to the output as `-1`, at the slot
corresponding to its input position — for any multiplier `M ≥ 1`, any
snapshot count, and any group.  (For `M ≥ 2` the sentinel lands in the
`{-1: -1}` bucket under snapshot key 0; for `M = 1` its snapshot number
computes to `-1`, no bucket exists and the run cannot have succeeded.) -/
theorem sentinel_preserved {f_in : HFile} {args : Args} {snapKeys : List String}
    {snapNums : String → Int} {out : List (String × HGroup)}
    {gk : String} {g : HGroup} {hvals : List Int} {fname : String} {vals : List Int}
    {p : Nat}
    (hrun : sort_and_write_file f_in args snapKeys snapNums = (out, none))
    (hndf : (f_in.map Prod.fst).Nodup)
    (hM1 : 1 ≤ args.index_mult_factor)
    (hsnn : ∀ kk : String, 0 ≤ snapNums kk)
    (hgmem : (gk, g) ∈ f_in) (hgnd : (g.map Prod.fst).Nodup)
    (hfmem : (fname, vals) ∈ g)
    (hisid : args.ID_fields.contains fname = true)
    (hhv : lk args.halo_id g = some hvals) (hhvne : hvals.length ≠ 0)
    (hv : vals[p]? = some (-1)) :
    ∃ (outg : HGroup) (gIdx : List Nat) (w : List Int),
      lk gk out = some outg ∧
      get_sort_indices g args.sort_fields = Except.ok gIdx ∧
      lk fname outg = some w ∧
      ∀ m : Nat, gIdx[m]? = some p → w[m]? = some (-1) := by
  rcases sort_and_write_ok_inv hrun with ⟨sidx, maps, hp1, hp2⟩
  rcases pass2Go_main hp2 hndf hgmem rfl with ⟨outg, hpf, hout⟩
  have hvsome : (lk fname g).isSome := by
    rw [lk_of_mem_nodup hgnd hfmem]
    rfl
  rcases processFields_main hhv hhvne hpf hgnd hfmem hvsome with ⟨w, hrw, hlkw⟩
  rcases rewriteField_ok_some_idx hrw with ⟨gIdx, hidx⟩
  rcases pass1_ok_inv hp1 with ⟨maps0, hgo, hmaps⟩
  rcases pass1Go_sidx_inv hgo (show lk gk (sidx, maps0).1 = some gIdx from hidx) with
    habs | ⟨g2, old2, hg2, _, _, hgsi⟩
  · exact Option.noConfusion habs
  have hg2g : g2 = g := by
    have hl := lk_of_mem_nodup hndf hgmem
    rw [hl] at hg2
    injection hg2 with h
    exact h.symm
  subst hg2g
  rw [hidx] at hrw
  rcases rewriteField_ok_id hrw hisid with ⟨rv, hmv, hpermE⟩
  rcases mapE_ok_get hmv hv with ⟨b, hb, hrvp⟩
  have hbval : b = -1 := by
    by_cases hM : 1 < args.index_mult_factor
    · have hsnap : temporalID_to_snapnum (-1) args.index_mult_factor = 0 := by
        rw [temporalID_to_snapnum]
        exact tdiv_neg_one hM
      have hlk0 : lk 0 maps = some [(-1, -1)] := by
        rw [hmaps]
        exact lk_pyInsert_self _ _ _
      have hlkv : lk (-1 : Int) [((-1 : Int), (-1 : Int))] = some (-1) := rfl
      have hcomp : remapValue maps args.index_mult_factor (-1) = Except.ok (-1) := by
        rw [remapValue, hsnap]
        simp only [hlk0, hlkv]
      rw [hcomp] at hb
      injection hb with hb
      exact hb.symm
    · have hMeq : args.index_mult_factor = 1 := le_antisymm (by omega) hM1
      have hkeys0 : ∀ q ∈ maps0, 0 ≤ q.1 :=
        pass1Go_maps_keys_nonneg hsnn hgo (fun q hq => absurd hq (List.not_mem_nil q))
      have hkeys : ∀ q ∈ maps, 0 ≤ q.1 := by
        intro q hq
        rw [hmaps] at hq
        rcases mem_pyInsert hq with he | hm
        · rw [he]
        · exact hkeys0 q hm
      have hnone : lk (-1 : Int) maps = none :=
        lk_eq_none_of_forall (fun q hq he => by
          have := hkeys q hq
          omega)
      have hsnap : temporalID_to_snapnum (-1) args.index_mult_factor = -1 := by
        rw [temporalID_to_snapnum, hMeq]
        decide
      rw [remapValue, hsnap, hnone] at hb
      exact Except.noConfusion hb
  subst hbval
  refine ⟨outg, gIdx, w, hout, hgsi, hlkw, ?_⟩
  intro m hm
  rcases mapE_ok_get hpermE hm with ⟨b2, hb2, hwm⟩
  have hb2' : rv[p]? = some b2 := getE_ok_iff.mp hb2
  rw [hrvp] at hb2'
  injection hb2' with hb2'
  exact hwm.trans (congrArg some hb2'.symm)

/-- Witness for C5: the `Head` field `[-1, 10]` of the snapshot numbered 1;
the sentinel at input position 0 lands at output slot 1 (sort permutation
`[1, 0]`) still as `-1`. -/
theorem sentinel_preserved_witness :
    ∃ (outg : HGroup) (gIdx : List Nat) (w : List Int),
      lk "Snap_001" [("Snap_001",
          ([("ID", [10, 11]), ("Mass", [3, 5]), ("Head", [11, -1])] : HGroup))] = some outg ∧
      get_sort_indices [("ID", [10, 11]), ("Mass", [5, 3]), ("Head", [-1, 10])] ["Mass"] =
        Except.ok gIdx ∧
      lk "Head" outg = some w ∧
      ∀ m : Nat, gIdx[m]? = some 0 → w[m]? = some (-1) :=
  sentinel_preserved
    (show sort_and_write_file
        [("Snap_001", [("ID", [10, 11]), ("Mass", [5, 3]), ("Head", [-1, 10])])]
        ⟨["Mass"], "ID", ["Head", "ID"], 10⟩ ["Snap_001"] (fun _ => 1) =
      ([("Snap_001", [("ID", [10, 11]), ("Mass", [3, 5]), ("Head", [11, -1])])], none)
      from rfl)
    (by decide) (by decide) (fun kk => by decide)
    (show ("Snap_001", ([("ID", [10, 11]), ("Mass", [5, 3]), ("Head", [-1, 10])] : HGroup)) ∈
      [("Snap_001", ([("ID", [10, 11]), ("Mass", [5, 3]), ("Head", [-1, 10])] : HGroup))]
      from by decide)
    (by decide)
    (show ("Head", ([-1, 10] : List Int)) ∈
      ([("ID", [10, 11]), ("Mass", [5, 3]), ("Head", [-1, 10])] : HGroup) from by decide)
    (by decide)
    (show lk "ID" [("ID", ([10, 11] : List Int)), ("Mass", [5, 3]), ("Head", [-1, 10])] =
      some [10, 11] from rfl)
    (by decide)
    (show ([-1, 10] : List Int)[0]? = some (-1) from rfl)

/-- C9: a run that claims success leaves no partial or inconsistent
output.  If `sort_and_write_file` finishes with no error, then *every*
input group is present in the output and *every one* of its fields holds
its final value: copied verbatim for skipped (non-record or empty)
groups, and the fully rewritten-and-permuted value for record groups — no
mixture of rewritten and unwritten fields can coexist with a claimed
success, because an error aborts the run before "Done!" is ever reported. -/
theorem consistent_output_on_success {f_in : HFile} {args : Args} {snapKeys : List String}
    {snapNums : String → Int} {out : List (String × HGroup)} {sidx : SnapIdx} {maps : IDMaps}
    (hrun : sort_and_write_file f_in args snapKeys snapNums = (out, none))
    (hp1 : pass1 f_in args snapKeys snapNums = Except.ok (sidx, maps))
    (hndf : (f_in.map Prod.fst).Nodup)
    (hfnd : ∀ kk gg, (kk, gg) ∈ f_in → ((gg : HGroup).map Prod.fst).Nodup) :
    ∀ kk gg, (kk, gg) ∈ f_in →
      ∃ outg : HGroup, lk kk out = some outg ∧
        ∀ fn vl, (fn, vl) ∈ gg →
          (lk args.halo_id gg = none → lk fn outg = some vl) ∧
          (∀ hv : List Int, lk args.halo_id gg = some hv → hv.length = 0 →
            lk fn outg = some vl) ∧
          (∀ hv : List Int, lk args.halo_id gg = some hv → hv.length ≠ 0 →
            ∃ w, rewriteField args maps (lk kk sidx) fn vl = Except.ok w ∧
              lk fn outg = some w) := by
  rcases sort_and_write_ok_inv hrun with ⟨sidx', maps', hp1', hp2⟩
  rw [hp1] at hp1'
  injection hp1' with hp1'
  have hse : sidx = sidx' := congrArg Prod.fst hp1'
  have hme : maps = maps' := congrArg Prod.snd hp1'
  subst hse hme
  intro kk gg hmem
  rcases pass2Go_main hp2 hndf hmem rfl with ⟨outg, hpf, hout⟩
  refine ⟨outg, hout, ?_⟩
  intro fn vl hfv
  have hgnd := hfnd kk gg hmem
  refine ⟨?_, ?_, ?_⟩
  · intro hnone
    have heq : gg = outg :=
      congrArg Prod.fst ((processFields_skip_all (Or.inl hnone) gg gg).symm.trans hpf)
    rw [← heq]
    exact lk_of_mem_nodup hgnd hfv
  · intro hv hsome hlen0
    have heq : gg = outg :=
      congrArg Prod.fst
        ((processFields_skip_all (Or.inr ⟨hv, hsome, hlen0⟩) gg gg).symm.trans hpf)
    rw [← heq]
    exact lk_of_mem_nodup hgnd hfv
  · intro hv hsome hlen
    have hfsome : (lk fn gg).isSome := by
      rw [lk_of_mem_nodup hgnd hfv]
      rfl
    exact processFields_main hsome hlen hpf hgnd hfv hfsome

/-- Witness for C9 on the successful 2-record run: the output group exists
and each of its fields satisfies the per-field characterization. -/
theorem consistent_output_on_success_witness :
    ∃ outg : HGroup,
      lk "Snap_001" [("Snap_001",
          ([("ID", [10, 11]), ("Mass", [3, 5]), ("Head", [11, 11])] : HGroup))] = some outg ∧
      ∀ fn vl, (fn, vl) ∈ ([("ID", [10, 11]), ("Mass", [5, 3]), ("Head", [10, 10])] : HGroup) →
        (lk "ID" ([("ID", [10, 11]), ("Mass", [5, 3]), ("Head", [10, 10])] : HGroup) = none →
          lk fn outg = some vl) ∧
        (∀ hv : List Int,
          lk "ID" ([("ID", [10, 11]), ("Mass", [5, 3]), ("Head", [10, 10])] : HGroup) = some hv →
          hv.length = 0 → lk fn outg = some vl) ∧
        (∀ hv : List Int,
          lk "ID" ([("ID", [10, 11]), ("Mass", [5, 3]), ("Head", [10, 10])] : HGroup) = some hv →
          hv.length ≠ 0 →
          ∃ w, rewriteField ⟨["Mass"], "ID", ["Head", "ID"], 10⟩
              [(1, [(11, 10), (10, 11)]), (0, [(-1, -1)])]
              (lk "Snap_001" [("Snap_001", ([1, 0] : List Nat))]) fn vl = Except.ok w ∧
            lk fn outg = some w) :=
  consistent_output_on_success
    (show sort_and_write_file
        [("Snap_001", [("ID", [10, 11]), ("Mass", [5, 3]), ("Head", [10, 10])])]
        ⟨["Mass"], "ID", ["Head", "ID"], 10⟩ ["Snap_001"] (fun _ => 1) =
      ([("Snap_001", [("ID", [10, 11]), ("Mass", [3, 5]), ("Head", [11, 11])])], none)
      from rfl)
    (show pass1
        [("Snap_001", [("ID", [10, 11]), ("Mass", [5, 3]), ("Head", [10, 10])])]
        ⟨["Mass"], "ID", ["Head", "ID"], 10⟩ ["Snap_001"] (fun _ => 1) =
      Except.ok ([("Snap_001", [1, 0])], [(1, [(11, 10), (10, 11)]), (0, [(-1, -1)])])
      from rfl)
    (by decide)
    (by
      intro kk gg hmem
      have h := List.mem_singleton.mp hmem
      injection h with h1 h2
      subst h2
      decide)
    "Snap_001" [("ID", [10, 11]), ("Mass", [5, 3]), ("Head", [10, 10])]
    (by decide)

end ForestSorter
